import Mathlib

/-!
Verification development for the cjk-text-formatter typography pipeline
(`src/cjk_text_formatter/polish.py`, `config.py`, `processors.py`).

Texts are modelled as `List Char`.  Every Python `re.sub` call is embedded as a
left-to-right, leftmost-match, non-overlapping scanner: a `SubStep` tries to
match the pattern at the head of the remaining text and, on success, returns
the replacement output together with the rest of the text after the consumed
span (zero-width lookaheads consume nothing).  `subRun` drives a step over the
whole text exactly the way `re.sub` does, advancing one character when the
pattern does not match at the current position.  Fuel equal to the text length
is always sufficient because every step consumes at least one character.

Python regex `\s` and `str.rstrip` whitespace are modelled by `isWs`, covering
the ASCII whitespace characters plus NEL, NBSP and the ideographic space
U+3000 (the whitespace characters relevant to the texts considered here).
-/

namespace CjkFmt

/-! ### Character classes (polish.py lines 13-33) -/

def isHan (c : Char) : Bool := 0x4e00 ≤ c.toNat && c.toNat ≤ 0x9fff

def isHiragana (c : Char) : Bool := 0x3040 ≤ c.toNat && c.toNat ≤ 0x309f

def isKatakana (c : Char) : Bool := 0x30a0 ≤ c.toNat && c.toNat ≤ 0x30ff

def isHangul (c : Char) : Bool := 0xac00 ≤ c.toNat && c.toNat ≤ 0xd7af

/-- `CJK_NO_KOREAN`: Han + Hiragana + Katakana. -/
def isCjkNoKorean (c : Char) : Bool := isHan c || isHiragana c || isKatakana c

/-- `CJK_ALL`: all CJK scripts including Hangul. -/
def isCjkAll (c : Char) : Bool := isCjkNoKorean c || isHangul c

def isAsciiAlnum (c : Char) : Bool :=
  (0x30 ≤ c.toNat && c.toNat ≤ 0x39) || (0x41 ≤ c.toNat && c.toNat ≤ 0x5a) ||
    (0x61 ≤ c.toNat && c.toNat ≤ 0x7a)

/-- Model of Python regex `\s` / `str.rstrip` whitespace (see module docstring). -/
def isWs (c : Char) : Bool :=
  c = ' ' || c = '\t' || c = '\n' || c = '\r' || c.toNat = 0x0b || c.toNat = 0x0c ||
    c.toNat = 0x85 || c.toNat = 0xa0 || c.toNat = 0x3000

/-- `CJK_TERMINAL_PUNCTUATION = '，。！？；：、'` -/
def cjkTerminalPunct : List Char := "，。！？；：、".data

/-- `CJK_CLOSING_BRACKETS = '》」』】）〉'` -/
def cjkClosingBrackets : List Char := "》」』】）〉".data

/-- `CJK_OPENING_BRACKETS = '《「『【（〈'` -/
def cjkOpeningBrackets : List Char := "《「『【（〈".data

/-- Character class of `CJK_CHARS_PATTERN` (Han/Hiragana/Katakana plus the CJK
brackets and terminal punctuation listed in polish.py line 33). -/
def isDashCtx (c : Char) : Bool :=
  isCjkNoKorean c || "《》「」『』【】（）〈〉，。！？；：、".data.contains c

/-! ### Generic `re.sub` runner -/

/-- A match attempt at the current position: on success, the replacement output
and the rest of the text after the consumed span. -/
def SubStep : Type := List Char → Option (List Char × List Char)

/-- Drive a `SubStep` over the text the way `re.sub` does.  Fuel-based so that
everything reduces by `rfl`/`decide`; fuel `= l.length` always suffices because
every step in this file consumes at least one character on success. -/
def subRun (step : SubStep) : Nat → List Char → List Char
  | 0, l => l
  | _ + 1, [] => []
  | fuel + 1, c :: cs =>
    match step (c :: cs) with
    | some (o, r) => o ++ subRun step fuel r
    | none => c :: subRun step fuel cs

def runSub (step : SubStep) (l : List Char) : List Char := subRun step l.length l

/-- Python substring test (`p in s`). -/
def containsSub (p : List Char) : List Char → Bool
  | [] => p.isEmpty
  | c :: cs => p.isPrefixOf (c :: cs) || containsSub p cs

/-! ### contains_cjk (polish.py lines 105-121) -/

/-- `bool(CHINESE_RE.search(text) or HANGUL_RE.search(text))` -/
def containsCjk (l : List Char) : Bool := l.any isHan || l.any isHangul

/-! ### _normalize_ellipsis (polish.py lines 124-141) -/

/-- One `\s+\.` unit of `ELLIPSIS_PATTERN`. -/
def wsThenDot (l : List Char) : Option (List Char) :=
  match l with
  | c :: cs =>
    if isWs c then
      match cs.dropWhile isWs with
      | '.' :: r => some r
      | _ => none
    else none
  | [] => none

/-- Greedy `(?:\s+\.)*`. -/
def moreWsDot : Nat → List Char → List Char
  | 0, l => l
  | fuel + 1, l =>
    match wsThenDot l with
    | some r => moreWsDot fuel r
    | none => l

/-- `ELLIPSIS_PATTERN = \s*\.\s+\.\s+\.(?:\s+\.)*`, replaced by `"..."`. -/
def stepEllipsisDots : SubStep := fun l =>
  match l.dropWhile isWs with
  | '.' :: l2 =>
    match wsThenDot l2 with
    | some l3 =>
      match wsThenDot l3 with
      | some l4 => some ("...".data, moreWsDot l4.length l4)
      | none => none
    | none => none
  | _ => none

/-- `ELLIPSIS_SPACING_PATTERN = \.\.\.\s*(?=\S)`, replaced by `"... "`. -/
def stepEllipsisSpace : SubStep := fun l =>
  match l with
  | '.' :: '.' :: '.' :: rest =>
    let r2 := rest.dropWhile isWs
    if r2.isEmpty then none else some ("... ".data, r2)
  | _ => none

def normalizeEllipsis (l : List Char) : List Char :=
  runSub stepEllipsisSpace (runSub stepEllipsisDots l)

/-! ### _replace_dash (polish.py lines 144-171) -/

/-- `DASH_PATTERN = ({CJK})\s*-{2,}\s*({CJK})` with the smart-spacing
replacement of `_replace_dash.repl`. -/
def stepDash : SubStep := fun l =>
  match l with
  | c1 :: rest =>
    if isDashCtx c1 then
      let r1 := rest.dropWhile isWs
      let ds := r1.takeWhile (· = '-')
      let r2 := r1.dropWhile (· = '-')
      if 2 ≤ ds.length then
        match r2.dropWhile isWs with
        | c2 :: r4 =>
          if isDashCtx c2 then
            some ([c1] ++ (if c1 = '）' || c1 = '》' then [] else [' ']) ++ "——".data ++
              (if c2 = '（' || c2 = '《' then [] else [' ']) ++ [c2], r4)
          else none
        | [] => none
      else none
    else none
  | [] => none

def replaceDash (l : List Char) : List Char := runSub stepDash l

/-! ### _fix_emdash_spacing (polish.py lines 174-197) -/

/-- `EMDASH_SPACING_PATTERN = ([^\s])\s*——\s*([^\s])` with the same
smart-spacing replacement. -/
def stepEmdash : SubStep := fun l =>
  match l with
  | c1 :: rest =>
    if isWs c1 then none else
      match rest.dropWhile isWs with
      | '—' :: '—' :: r2 =>
        match r2.dropWhile isWs with
        | c2 :: r4 =>
          some ([c1] ++ (if c1 = '）' || c1 = '》' then [] else [' ']) ++ "——".data ++
            (if c2 = '（' || c2 = '《' then [] else [' ']) ++ [c2], r4)
        | [] => none
      | _ => none
  | [] => none

def fixEmdashSpacing (l : List Char) : List Char := runSub stepEmdash l

/-! ### _fix_quote_spacing (polish.py lines 200-292) -/

def noSpaceBefore : List Char := cjkClosingBrackets ++ cjkTerminalPunct

def noSpaceAfter : List Char := cjkOpeningBrackets ++ cjkTerminalPunct

/-- The character class before an opening quote:
`[A-Za-z0-9{CJK_ALL}{CJK_CLOSING_BRACKETS}{CJK_TERMINAL_PUNCTUATION}]`. -/
def quoteBeforeClass (c : Char) : Bool :=
  isAsciiAlnum c || isCjkAll c || cjkClosingBrackets.contains c || cjkTerminalPunct.contains c

/-- The character class after a closing quote:
`[A-Za-z0-9{CJK_ALL}{CJK_OPENING_BRACKETS}{CJK_TERMINAL_PUNCTUATION}]`. -/
def quoteAfterClass (c : Char) : Bool :=
  isAsciiAlnum c || isCjkAll c || cjkOpeningBrackets.contains c || cjkTerminalPunct.contains c

/-- `(class|——){opening_quote}` with `repl_before` (the `before in no_space_before`
membership test is Python substring containment). -/
def stepQuoteBefore (oq : Char) : SubStep := fun l =>
  match l with
  | c :: q :: r =>
    if q = oq && quoteBeforeClass c then
      some ([c] ++ (if containsSub [c] noSpaceBefore then [] else [' ']) ++ [oq], r)
    else if c = '—' then
      match r with
      | q2 :: r2 =>
        if q = '—' && q2 = oq then
          some ("——".data ++ (if containsSub "——".data noSpaceBefore then [] else [' ']) ++
            [oq], r2)
        else none
      | [] => none
    else none
  | _ => none

/-- `{closing_quote}(class|——)` with `repl_after`. -/
def stepQuoteAfter (cq : Char) : SubStep := fun l =>
  match l with
  | q :: c :: r =>
    if q = cq then
      if quoteAfterClass c then
        some ([cq] ++ (if containsSub [c] noSpaceAfter then [] else [' ']) ++ [c], r)
      else if c = '—' then
        match r with
        | c2 :: r2 =>
          if c2 = '—' then
            some ([cq] ++ (if containsSub "——".data noSpaceAfter then [] else [' ']) ++
              "——".data, r2)
          else none
        | [] => none
      else none
    else none
  | _ => none

def fixQuoteSpacing (oq cq : Char) (l : List Char) : List Char :=
  runSub (stepQuoteAfter cq) (runSub (stepQuoteBefore oq) l)

def fixQuotes (l : List Char) : List Char := fixQuoteSpacing '“' '”' l

def fixSingleQuotes (l : List Char) : List Char := fixQuoteSpacing '‘' '’' l

/-! ### _fix_cjk_parenthesis_spacing (polish.py lines 295-315) -/

def stepCjkOpenParen : SubStep := fun l =>
  match l with
  | c :: '(' :: r => if isCjkAll c then some ([c, ' ', '('], r) else none
  | _ => none

def stepCloseParenCjk : SubStep := fun l =>
  match l with
  | ')' :: c :: r => if isCjkAll c then some ([')', ' ', c], r) else none
  | _ => none

def fixCjkParenSpacing (l : List Char) : List Char :=
  runSub stepCloseParenCjk (runSub stepCjkOpenParen l)

/-! ### _normalize_fullwidth_punctuation (polish.py lines 318-348) -/

/-- The `half_to_full` mapping, in Python dict insertion order. -/
def halfToFull : List (Char × Char) :=
  [(',', '，'), ('.', '。'), ('!', '！'), ('?', '？'), (';', '；'), (':', '：')]

/-- `([CJK_NO_KOREAN]){half}([CJK_NO_KOREAN])` → `\1{full}\2`. -/
def stepFwBoth (p f : Char) : SubStep := fun l =>
  match l with
  | c1 :: c2 :: c3 :: r =>
    if c2 = p && isCjkNoKorean c1 && isCjkNoKorean c3 then some ([c1, f, c3], r) else none
  | _ => none

def wsOrEnd : List Char → Bool
  | [] => true
  | c :: _ => isWs c

/-- `([CJK_NO_KOREAN]){half}(?=\s|$)` → `\1{full}` (lookahead consumes nothing). -/
def stepFwEnd (p f : Char) : SubStep := fun l =>
  match l with
  | c1 :: c2 :: r =>
    if c2 = p && isCjkNoKorean c1 && wsOrEnd r then some ([c1, f], r) else none
  | _ => none

def fwPunctPass (p f : Char) (l : List Char) : List Char :=
  runSub (stepFwEnd p f) (runSub (stepFwBoth p f) l)

def normalizeFullwidthPunct (l : List Char) : List Char :=
  halfToFull.foldl (fun t pf => fwPunctPass pf.1 pf.2 t) l

/-! ### _normalize_fullwidth_parentheses / _normalize_fullwidth_brackets
(polish.py lines 351-362) -/

/-- `FULLWIDTH_PARENS_PATTERN = \(([CJK_NO_KOREAN][^()]*)\)` → `（\1）`. -/
def stepFwParens : SubStep := fun l =>
  match l with
  | '(' :: c :: r =>
    if isCjkNoKorean c then
      let content := r.takeWhile (fun x => !(x = '(' || x = ')'))
      match r.dropWhile (fun x => !(x = '(' || x = ')')) with
      | ')' :: r3 => some ('（' :: c :: content ++ ['）'], r3)
      | _ => none
    else none
  | _ => none

def normalizeFullwidthParens (l : List Char) : List Char := runSub stepFwParens l

/-- `FULLWIDTH_BRACKETS_PATTERN = \[([CJK_NO_KOREAN][^\[\]]*)\]` → `【\1】`. -/
def stepFwBrackets : SubStep := fun l =>
  match l with
  | '[' :: c :: r =>
    if isCjkNoKorean c then
      let content := r.takeWhile (fun x => !(x = '[' || x = ']'))
      match r.dropWhile (fun x => !(x = '[' || x = ']')) with
      | ']' :: r3 => some ('【' :: c :: content ++ ['】'], r3)
      | _ => none
    else none
  | _ => none

def normalizeFullwidthBrackets (l : List Char) : List Char := runSub stepFwBrackets l

/-! ### _cleanup_consecutive_punctuation (polish.py lines 365-387) -/

def stepPunctRun (mark : Char) (minRun keep : Nat) : SubStep := fun l =>
  let run := l.takeWhile (· = mark)
  if minRun ≤ run.length then some (List.replicate keep mark, l.dropWhile (· = mark)) else none

def cleanupConsecutivePunct (limit : Int) (l : List Char) : List Char :=
  ['！', '？', '。'].foldl
    (fun t m =>
      if limit = 1 then runSub (stepPunctRun m 2 1) t
      else if limit = 2 then runSub (stepPunctRun m 3 2) t
      else t) l

/-! ### _normalize_fullwidth_alphanumeric (polish.py lines 390-406) -/

def fwAlnumChar (c : Char) : Char :=
  if (0xff10 ≤ c.toNat && c.toNat ≤ 0xff19) || (0xff21 ≤ c.toNat && c.toNat ≤ 0xff3a) ||
      (0xff41 ≤ c.toNat && c.toNat ≤ 0xff5a) then
    Char.ofNat (c.toNat - 0xfee0)
  else c

def normalizeFullwidthAlphanumeric (l : List Char) : List Char := l.map fwAlnumChar

/-! ### _fix_currency_spacing (polish.py lines 409-413) -/

/-- The character class `[$¥€£₹USD|CNY|EUR|GBP]` (a regex character *class*:
the set of its characters, pipes included). -/
def currencyClassChars : List Char := "$¥€£₹USD|CNY|EUR|GBP".data

def isAsciiDigit (c : Char) : Bool := 0x30 ≤ c.toNat && c.toNat ≤ 0x39

/-- `CURRENCY_SPACING_PATTERN = ([class])\s+(\d)` → `\1\2`. -/
def stepCurrency : SubStep := fun l =>
  match l with
  | c :: r =>
    if currencyClassChars.contains c then
      let ws := r.takeWhile isWs
      if ws.isEmpty then none else
        match r.dropWhile isWs with
        | d :: r3 => if isAsciiDigit d then some ([c, d], r3) else none
        | [] => none
    else none
  | [] => none

def fixCurrencySpacing (l : List Char) : List Char := runSub stepCurrency l

/-! ### _fix_slash_spacing (polish.py lines 416-421)

`SLASH_SPACING_PATTERN = (?<![/:])\s*/\s*(?!/)` → `/`.  The lookbehind needs
the character before the match start, so this scanner threads it. -/

def slashPrevOk : Option Char → Bool
  | some c => !(c = '/' || c = ':')
  | none => true

/-- Try to match `\s*/\s*(?!/)` at the current position, returning the rest of
the text after the consumed span and the last consumed character.  The greedy
trailing `\s*` backtracks by exactly one character when the next character is
`/` (the given-back character is whitespace, so the lookahead then succeeds). -/
def slashMatch (l : List Char) : Option (List Char × Char) :=
  match l.dropWhile isWs with
  | '/' :: r2 =>
    let w2 := r2.takeWhile isWs
    let r3 := r2.dropWhile isWs
    match r3 with
    | '/' :: _ =>
      match w2.getLast? with
      | some lastWs => some (lastWs :: r3, w2.dropLast.getLastD '/')
      | none => none
    | _ => some (r3, w2.getLastD '/')
  | _ => none

def slashScan : Nat → Option Char → List Char → List Char
  | 0, _, l => l
  | _ + 1, _, [] => []
  | fuel + 1, prev, c :: cs =>
    if slashPrevOk prev then
      match slashMatch (c :: cs) with
      | some (rest, lastC) => '/' :: slashScan fuel (some lastC) rest
      | none => c :: slashScan fuel (some c) cs
    else c :: slashScan fuel (some c) cs

def fixSlashSpacing (l : List Char) : List Char := slashScan l.length none l

/-! ### _space_between (polish.py lines 424-448)

`alphanum_pattern =
  (?:[$¥€£₹][ ]?)?[A-Za-z0-9]+(?:[%‰℃℉]|°[CcFf]?|[ ]?(?:USD|CNY|EUR|GBP|RMB))?`
-/

def sbCurrencySyms : List Char := "$¥€£₹".data

def sbUnitChars : List Char := "%‰℃℉".data

def sbCodes : List (List Char) := ["USD".data, "CNY".data, "EUR".data, "GBP".data, "RMB".data]

def codeAt (l : List Char) : Option (List Char × List Char) :=
  sbCodes.findSome? fun cd => if cd.isPrefixOf l then some (cd, l.drop cd.length) else none

/-- Greedy suffix `(?:[%‰℃℉]|°[CcFf]?|[ ]?(?:USD|CNY|EUR|GBP|RMB))?` with no
following constraint: first alternative in regex order, else empty. -/
def sbSuffixGreedy (l : List Char) : List Char × List Char :=
  match l with
  | c :: r =>
    if sbUnitChars.contains c then ([c], r)
    else if c = '°' then
      match r with
      | x :: r2 => if "CcFf".data.contains x then (['°', x], r2) else (['°'], r)
      | [] => (['°'], [])
    else if c = ' ' then
      match codeAt r with
      | some (cd, r2) => (' ' :: cd, r2)
      | none => ([], l)
    else
      match codeAt l with
      | some (cd, r2) => (cd, r2)
      | none => ([], l)
  | [] => ([], [])

/-- All suffix alternatives at this position in regex backtracking order,
ending with the empty suffix. -/
def sbSuffixCandidates (l : List Char) : List (List Char × List Char) :=
  (match l with
   | c :: r =>
     (if sbUnitChars.contains c then [([c], r)] else []) ++
     (if c = '°' then
        match r with
        | x :: r2 =>
          if "CcFf".data.contains x then [(['°', x], r2), (['°'], r)] else [(['°'], r)]
        | [] => [(['°'], [])]
      else []) ++
     (if c = ' ' then
        match codeAt r with
        | some (cd, r2) => [(' ' :: cd, r2)]
        | none => []
      else
        match codeAt l with
        | some (cd, r2) => [(cd, r2)]
        | none => [])
   | [] => []) ++ [([], l)]

/-- Pattern 1: `([{CJK_ALL}])({alphanum_pattern})` → `\1 \2`.  With nothing
after the group, the greedy parse is deterministic. -/
def matchAlnumGreedy (l : List Char) : Option (List Char × List Char) :=
  match l with
  | c :: r =>
    if sbCurrencySyms.contains c then
      match r with
      | ' ' :: x :: r2 =>
        if isAsciiAlnum x then
          let run := (x :: r2).takeWhile isAsciiAlnum
          let (suf, r4) := sbSuffixGreedy ((x :: r2).dropWhile isAsciiAlnum)
          some (c :: ' ' :: run ++ suf, r4)
        else
          match r with
          | y :: _ =>
            if isAsciiAlnum y then
              let run := r.takeWhile isAsciiAlnum
              let (suf, r4) := sbSuffixGreedy (r.dropWhile isAsciiAlnum)
              some (c :: run ++ suf, r4)
            else none
          | [] => none
      | x :: _ =>
        if isAsciiAlnum x then
          let run := r.takeWhile isAsciiAlnum
          let (suf, r4) := sbSuffixGreedy (r.dropWhile isAsciiAlnum)
          some (c :: run ++ suf, r4)
        else none
      | [] => none
    else if isAsciiAlnum c then
      let run := l.takeWhile isAsciiAlnum
      let (suf, r4) := sbSuffixGreedy (l.dropWhile isAsciiAlnum)
      some (run ++ suf, r4)
    else none
  | [] => none

def stepSb1 : SubStep := fun l =>
  match l with
  | c1 :: r =>
    if isCjkAll c1 then
      match matchAlnumGreedy r with
      | some (g, rest) => some (c1 :: ' ' :: g, rest)
      | none => none
    else none
  | [] => none

/-- Pattern 2 body after a chosen currency prefix: the greedy `[A-Za-z0-9]+`
run (carried reversed for structural give-back), then the ordered suffix
alternatives, each requiring a following `[{CJK_ALL}]` character. -/
def sb2FromRunRev (takenRev remainder : List Char) : Option (List Char × Char × List Char) :=
  match takenRev with
  | [] => none
  | t :: ts =>
    match (sbSuffixCandidates remainder).findSome? (fun sr =>
      match sr.2 with
      | c2 :: r3 => if isCjkAll c2 then some (sr.1, c2, r3) else none
      | [] => none) with
    | some (suf, c2, r3) => some ((t :: ts).reverse ++ suf, c2, r3)
    | none => sb2FromRunRev ts (t :: remainder)

def sb2Branch (pre r : List Char) : Option (List Char × List Char) :=
  match r with
  | x :: _ =>
    if isAsciiAlnum x then
      match sb2FromRunRev (r.takeWhile isAsciiAlnum).reverse (r.dropWhile isAsciiAlnum) with
      | some (g, c2, r3) => some (pre ++ g ++ [' ', c2], r3)
      | none => none
    else none
  | [] => none

/-- Pattern 2: `({alphanum_pattern})([{CJK_ALL}])` → `\1 \2`, with full
backtracking order: currency-with-space, currency-alone, no-currency. -/
def stepSb2 : SubStep := fun l =>
  match l with
  | c :: r =>
    if sbCurrencySyms.contains c then
      (match r with
       | ' ' :: r2 => sb2Branch [c, ' '] r2
       | _ => none).orElse (fun _ => sb2Branch [c] r)
    else sb2Branch [] l
  | [] => none

def spaceBetween (l : List Char) : List Char := runSub stepSb2 (runSub stepSb1 l)

/-! ### Space collapsing / trailing spaces / newline collapsing
(polish.py lines 49-51, 522-532) -/

/-- `MULTI_SPACE_PATTERN = (\S) {2,}` → `\1 `. -/
def stepMultiSpace : SubStep := fun l =>
  match l with
  | c :: r =>
    if isWs c then none
    else
      let sp := r.takeWhile (· = ' ')
      if 2 ≤ sp.length then some ([c, ' '], r.dropWhile (· = ' ')) else none
  | [] => none

def collapseMultiSpace (l : List Char) : List Char := runSub stepMultiSpace l

/-- `TRAILING_SPACE_PATTERN = " +$"` (MULTILINE) → `""`. -/
def stepTrailing : SubStep := fun l =>
  let sp := l.takeWhile (· = ' ')
  if sp.isEmpty then none
  else
    match l.dropWhile (· = ' ') with
    | [] => some ([], [])
    | '\n' :: r => some ([], '\n' :: r)
    | _ => none

def removeTrailingSpaces (l : List Char) : List Char := runSub stepTrailing l

/-- `EXCESSIVE_NEWLINE_PATTERN = \n{3,}` → `"\n\n"`. -/
def stepNewlines : SubStep := fun l =>
  let ns := l.takeWhile (· = '\n')
  if 3 ≤ ns.length then some (['\n', '\n'], l.dropWhile (· = '\n')) else none

def collapseNewlines (l : List Char) : List Char := runSub stepNewlines l

/-- Python `str.rstrip()`. -/
def rstrip (l : List Char) : List Char := (l.reverse.dropWhile isWs).reverse

/-- Python `str.lstrip()`. -/
def lstrip (l : List Char) : List Char := l.dropWhile isWs

/-- Python `str.strip()`. -/
def strip (l : List Char) : List Char := lstrip (rstrip l)

/-! ### RuleConfig (config.py lines 20-90) -/

/-- A value stored in the `rules` dict: Python booleans or integers. -/
inductive CVal where
  | bv : Bool → CVal
  | iv : Int → CVal
deriving DecidableEq

/-- Python truthiness of a rule value (`if config.is_enabled(...)`). -/
def truthy : CVal → Bool
  | .bv b => b
  | .iv k => k != 0

/-- A custom-rule record; a missing dict key is `none` (Python `KeyError`). -/
structure CustomRule where
  name : Option (List Char) := none
  pattern : Option (List Char) := none
  replacement : Option (List Char) := none

/-- The observable behaviour of a compiled regex as used by the custom-rule
engine: `subst replacement text` models `re.sub(pattern, replacement, text)`
and `count text` models `len(re.findall(pattern, text))`. -/
structure Re where
  subst : List Char → List Char → List Char
  count : List Char → Nat

/-- `re.compile`: `none` models `re.error` for an invalid pattern.  The
pipeline is parametric in this function, since the regexes of custom rules are
arbitrary user input. -/
def Compile : Type := List Char → Option Re

/-- `re.sub` leaves the text unchanged when the pattern has no match; a
`Compile` function modelling Python's `re` satisfies this. -/
def ReFaithful (compile : Compile) : Prop :=
  ∀ p re, compile p = some re → ∀ rep t, re.count t = 0 → re.subst rep t = t

structure RuleConfig where
  rules : List (String × CVal)
  custom_rules : List CustomRule

def lookupRule (cfg : RuleConfig) (n : String) : Option CVal :=
  (cfg.rules.find? (fun p => p.1 == n)).map (·.2)

/-- `RuleConfig.is_enabled`: `self.rules.get(rule_name, True)`, used for its
truthiness. -/
def RuleConfig.is_enabled (cfg : RuleConfig) (n : String) : Bool :=
  truthy ((lookupRule cfg n).getD (.bv true))

/-- `config.get_value('consecutive_punctuation_limit', 0)` as an integer
(Python `bool` is an `int`). -/
def punctLimit (cfg : RuleConfig) : Int :=
  match lookupRule cfg "consecutive_punctuation_limit" with
  | some (.iv k) => k
  | some (.bv b) => if b then 1 else 0
  | none => 0

/-- `DEFAULT_RULES` (config.py lines 20-39). -/
def defaultRules : List (String × CVal) :=
  [("ellipsis_normalization", .bv true),
   ("dash_conversion", .bv true),
   ("emdash_spacing", .bv true),
   ("quote_spacing", .bv true),
   ("single_quote_spacing", .bv true),
   ("cjk_english_spacing", .bv true),
   ("cjk_parenthesis_spacing", .bv true),
   ("space_collapsing", .bv true),
   ("fullwidth_punctuation", .bv true),
   ("fullwidth_parentheses", .bv true),
   ("fullwidth_brackets", .bv false),
   ("fullwidth_alphanumeric", .bv true),
   ("consecutive_punctuation_limit", .iv 0),
   ("currency_spacing", .bv true),
   ("slash_spacing", .bv true)]

/-- `RuleConfig()` with the default rules and no custom rules. -/
def defaultConfig : RuleConfig := ⟨defaultRules, []⟩

/-! ### _apply_custom_rules (polish.py lines 540-559) -/

/-- The per-rule loop of `_apply_custom_rules`: a missing `pattern` or
`replacement` key (`KeyError`) or a failing compile (`re.error`) skips the
rule; otherwise `re.sub` is applied and the loop continues on its output. -/
def applyCustomRules (compile : Compile) : List CustomRule → List Char → List Char
  | [], t => t
  | r :: rs, t =>
    match r.pattern, r.replacement with
    | some p, some rep =>
      match compile p with
      | some re => applyCustomRules compile rs (re.subst rep t)
      | none => applyCustomRules compile rs t
    | _, _ => applyCustomRules compile rs t

/-- The custom-rule loop of `polish_text_verbose` (polish.py lines 640-655):
identical except that `re.sub` is only applied when `len(re.findall(...)) > 0`. -/
def applyCustomRulesVerbose (compile : Compile) : List CustomRule → List Char → List Char
  | [], t => t
  | r :: rs, t =>
    match r.pattern, r.replacement with
    | some p, some rep =>
      match compile p with
      | some re =>
        applyCustomRulesVerbose compile rs (if 0 < re.count t then re.subst rep t else t)
      | none => applyCustomRulesVerbose compile rs t
    | _, _ => applyCustomRulesVerbose compile rs t

/-! ### polish_text (polish.py lines 451-537) -/

def polishTextCore (compile : Compile) (cfg : RuleConfig) (text : List Char) : List Char :=
  let t := if cfg.is_enabled "ellipsis_normalization" then normalizeEllipsis text else text
  let t :=
    if containsCjk t then
      let t := if cfg.is_enabled "fullwidth_alphanumeric" then
        normalizeFullwidthAlphanumeric t else t
      let t := if cfg.is_enabled "fullwidth_punctuation" then normalizeFullwidthPunct t else t
      let t := if cfg.is_enabled "fullwidth_brackets" then normalizeFullwidthBrackets t else t
      let t := if cfg.is_enabled "dash_conversion" then replaceDash t else t
      let t := if cfg.is_enabled "emdash_spacing" then fixEmdashSpacing t else t
      let t := if cfg.is_enabled "quote_spacing" then fixQuotes t else t
      let t := if cfg.is_enabled "single_quote_spacing" then fixSingleQuotes t else t
      let t := if cfg.is_enabled "cjk_english_spacing" then spaceBetween t else t
      let t := if cfg.is_enabled "cjk_parenthesis_spacing" then fixCjkParenSpacing t else t
      let t := if cfg.is_enabled "fullwidth_parentheses" then normalizeFullwidthParens t else t
      let t := if cfg.is_enabled "currency_spacing" then fixCurrencySpacing t else t
      let t := if cfg.is_enabled "slash_spacing" then fixSlashSpacing t else t
      let t := if 0 < punctLimit cfg then cleanupConsecutivePunct (punctLimit cfg) t else t
      let t := if cfg.is_enabled "space_collapsing" then collapseMultiSpace t else t
      removeTrailingSpaces t
    else t
  let t := collapseNewlines t
  let t := applyCustomRules compile cfg.custom_rules t
  rstrip t

/-- `polish_text` on `String`s with the default config (custom rules empty, so
the `Compile` parameter is irrelevant and instantiated with constant failure). -/
def polish_text (s : String) : String :=
  ⟨polishTextCore (fun _ => none) defaultConfig s.data⟩

/-! ### polish_text_verbose (polish.py lines 562-657), text component

The statistics counters never feed back into the text, so only the text
component is modelled; note which rule applications the verbose variant
performs (and in which order) compared to `polish_text`. -/

def verboseTextCore (compile : Compile) (cfg : RuleConfig) (text : List Char) : List Char :=
  let t := if cfg.is_enabled "ellipsis_normalization" then normalizeEllipsis text else text
  let t :=
    if containsCjk t then
      let t := if cfg.is_enabled "dash_conversion" then replaceDash t else t
      let t := if cfg.is_enabled "emdash_spacing" then fixEmdashSpacing t else t
      let t := if cfg.is_enabled "quote_spacing" then fixQuotes t else t
      let t := if cfg.is_enabled "cjk_english_spacing" then spaceBetween t else t
      let t := if cfg.is_enabled "space_collapsing" then collapseMultiSpace t else t
      removeTrailingSpaces t
    else t
  let t := collapseNewlines t
  let t := applyCustomRulesVerbose compile cfg.custom_rules t
  rstrip t

/-! ### MarkdownProcessor.process (processors.py lines 69-131) -/

def btick : Char := Char.ofNat 96

/-- Find the first occurrence of a triple backtick: returns the text before it
and the text after it. -/
def findTriple : List Char → Option (List Char × List Char)
  | [] => none
  | c :: cs =>
    if c = btick then
      match cs with
      | c2 :: c3 :: r => if c2 = btick && c3 = btick then some ([], r) else
          (findTriple cs).map (fun pr => (c :: pr.1, pr.2))
      | _ => (findTriple cs).map (fun pr => (c :: pr.1, pr.2))
    else (findTriple cs).map (fun pr => (c :: pr.1, pr.2))

/-- Placeholder `___CODE_BLOCK_{i}___`. -/
def token (i : Nat) : List Char :=
  "___CODE_BLOCK_".data ++ (Nat.repr i).data ++ "___".data

/-- `re.sub(r'```[\s\S]*?```', save_code, text)`: replace each fenced block
with a placeholder, collecting the blocks (lazy matching pairs each opening
fence with the nearest closing fence). -/
def extractFenced : Nat → List (List Char) → List Char → List Char × List (List Char)
  | 0, blocks, l => (l, blocks)
  | fuel + 1, blocks, l =>
    match findTriple l with
    | none => (l, blocks)
    | some (pre, rest1) =>
      match findTriple rest1 with
      | none => (l, blocks)
      | some (mid, rest2) =>
        let blk := btick :: btick :: btick :: mid ++ [btick, btick, btick]
        let (t, bs) := extractFenced fuel (blocks ++ [blk]) rest2
        (pre ++ token blocks.length ++ t, bs)

/-- One attempt of `` `[^`\n]+?` `` at the current position. -/
def inlineAt (l : List Char) : Option (List Char × List Char) :=
  match l with
  | c :: cs =>
    if c = btick then
      let mid := cs.takeWhile (fun x => !(x = btick || x = '\n'))
      match cs.dropWhile (fun x => !(x = btick || x = '\n')) with
      | d :: r => if d = btick && !mid.isEmpty then some (btick :: mid ++ [btick], r) else none
      | [] => none
    else none
  | [] => none

/-- `re.sub(r'`[^`\n]+?`', save_code, text)`: replace inline code spans with
placeholders, continuing the shared numbering. -/
def extractInline : Nat → List (List Char) → List Char → List Char × List (List Char)
  | 0, blocks, l => (l, blocks)
  | _ + 1, blocks, [] => ([], blocks)
  | fuel + 1, blocks, c :: cs =>
    match inlineAt (c :: cs) with
    | some (blk, rest) =>
      let (t, bs) := extractInline fuel (blocks ++ [blk]) rest
      (token blocks.length ++ t, bs)
    | none =>
      let (t, bs) := extractInline fuel blocks cs
      (c :: t, bs)

/-- `text.split('\n')`. -/
def splitNl : List Char → List (List Char)
  | [] => [[]]
  | c :: cs =>
    let r := splitNl cs
    if c = '\n' then [] :: r
    else
      match r with
      | h :: t => (c :: h) :: t
      | [] => [[c]]

/-- `'\n'.join(lines)`. -/
def joinNl : List (List Char) → List Char
  | [] => []
  | [h] => h
  | h :: t => h ++ '\n' :: joinNl t

/-- The indented-code line-scanning loop of `MarkdownProcessor.process`
(processors.py lines 100-118). -/
def processLines (compile : Compile) (cfg : RuleConfig) :
    Bool → List (List Char) → List (List Char)
  | _, [] => []
  | inCode, line :: rest =>
    let isCodeLine := "    ".data.isPrefixOf line || "\t".data.isPrefixOf line
    let inCode2 :=
      if isCodeLine && !inCode then true
      else if !isCodeLine && !(strip line).isEmpty && inCode then false
      else inCode
    let line2 := if !inCode2 && !isCodeLine then polishTextCore compile cfg line else line
    line2 :: processLines compile cfg inCode2 rest

/-- Python `str.replace` (all non-overlapping occurrences, left to right). -/
def replaceAll (pat rep : List Char) : Nat → List Char → List Char
  | 0, l => l
  | _ + 1, [] => []
  | fuel + 1, c :: cs =>
    if pat.isPrefixOf (c :: cs) && !pat.isEmpty then
      rep ++ replaceAll pat rep fuel ((c :: cs).drop pat.length)
    else c :: replaceAll pat rep fuel cs

/-- The restoration loop: `for i, code_block in enumerate(code_blocks):
text = text.replace(f"___CODE_BLOCK_{i}___", code_block)`. -/
def restoreBlocks : Nat → List (List Char) → List Char → List Char
  | _, [], t => t
  | i, b :: bs, t => restoreBlocks (i + 1) bs (replaceAll (token i) b t.length t)

/-- `MarkdownProcessor.process`. -/
def processMarkdown (compile : Compile) (cfg : RuleConfig) (text : List Char) : List Char :=
  let (t1, blocks1) := extractFenced text.length [] text
  let (t2, blocks) := extractInline t1.length blocks1 t1
  let lines := splitNl t2
  let joined := joinNl (processLines compile cfg false lines)
  let collapsed := collapseNewlines joined
  restoreBlocks 0 blocks collapsed

/-! ### Derived notions used by the theorems -/

/-- A custom rule that the engine does not skip: both `pattern` and
`replacement` keys present and the pattern compiles. -/
def isValidRule (compile : Compile) (r : CustomRule) : Bool :=
  match r.pattern, r.replacement with
  | some p, some _ => (compile p).isSome
  | _, _ => false

/-- Whether the text contains a run of three consecutive newlines. -/
def hasTripleNl : List Char → Bool
  | [] => false
  | c :: cs => (c = '\n' && "\n\n".data.isPrefixOf cs) || hasTripleNl cs

/-- A config agreeing with the defaults on the rules that
`polish_text_verbose` applies, with every rule absent from the verbose
pipeline disabled (used as a witness configuration). -/
def cfgVerboseShared : RuleConfig :=
  ⟨[("ellipsis_normalization", .bv true),
    ("dash_conversion", .bv true),
    ("emdash_spacing", .bv true),
    ("quote_spacing", .bv true),
    ("single_quote_spacing", .bv false),
    ("cjk_english_spacing", .bv true),
    ("cjk_parenthesis_spacing", .bv false),
    ("space_collapsing", .bv true),
    ("fullwidth_punctuation", .bv false),
    ("fullwidth_parentheses", .bv false),
    ("fullwidth_brackets", .bv false),
    ("fullwidth_alphanumeric", .bv false),
    ("consecutive_punctuation_limit", .iv 0),
    ("currency_spacing", .bv false),
    ("slash_spacing", .bv false)], []⟩

/-- The constantly failing `Compile` (no custom rule ever compiles); adequate
wherever the custom-rule list is empty. -/
def compileNone : Compile := fun _ => none

/-! ## Helper lemmas -/

theorem applyCustomRules_filter (compile : Compile) :
    ∀ (rules : List CustomRule) (t : List Char),
      applyCustomRules compile rules t
        = applyCustomRules compile (rules.filter (fun r => isValidRule compile r)) t := by
  intro rules
  induction rules with
  | nil => intro t; rfl
  | cons r rs ih =>
    intro t
    match hp : r.pattern, hq : r.replacement with
    | some p, some rep =>
      match hc : compile p with
      | some re =>
        have hv : isValidRule compile r = true := by
          simp [isValidRule, hp, hq, hc]
        simp only [applyCustomRules, hp, hq, hc, List.filter_cons, hv, if_pos]
        exact ih (re.subst rep t)
      | none =>
        have hv : isValidRule compile r = false := by
          simp [isValidRule, hp, hq, hc]
        simp only [applyCustomRules, hp, hq, hc, List.filter_cons, hv]
        simpa using ih t
    | some p, none =>
      have hv : isValidRule compile r = false := by simp [isValidRule, hp, hq]
      simp only [applyCustomRules, hp, hq, List.filter_cons, hv]
      simpa using ih t
    | none, _ =>
      have hv : isValidRule compile r = false := by simp [isValidRule, hp]
      simp only [applyCustomRules, hp, List.filter_cons, hv]
      simpa using ih t

theorem subRun_stepDash_id : ∀ (fuel : Nat) (l : List Char),
    (∀ c ∈ l, isDashCtx c = false) → subRun stepDash fuel l = l := by
  intro fuel
  induction fuel with
  | zero => intro l _; rfl
  | succ f ih =>
    intro l hl
    match l with
    | [] => rfl
    | c :: cs =>
      have hc : isDashCtx c = false := hl c (List.mem_cons_self c cs)
      have hstep : stepDash (c :: cs) = none := by
        simp [stepDash, hc]
      simp only [subRun, hstep]
      exact congrArg (c :: ·) (ih cs (fun x hx => hl x (List.mem_cons_of_mem c hx)))

theorem applyCustomRulesVerbose_eq (compile : Compile) (hc : ReFaithful compile) :
    ∀ (rules : List CustomRule) (t : List Char),
      applyCustomRulesVerbose compile rules t = applyCustomRules compile rules t := by
  intro rules
  induction rules with
  | nil => intro t; rfl
  | cons r rs ih =>
    intro t
    match hp : r.pattern, hq : r.replacement with
    | some p, some rep =>
      match hcp : compile p with
      | some re =>
        simp only [applyCustomRulesVerbose, applyCustomRules, hp, hq, hcp]
        by_cases h0 : 0 < re.count t
        · rw [if_pos h0]; exact ih _
        · rw [if_neg h0, hc p re hcp rep t (by omega)]
          exact ih _
      | none => simp only [applyCustomRulesVerbose, applyCustomRules, hp, hq, hcp]; exact ih t
    | some p, none => simp only [applyCustomRulesVerbose, applyCustomRules, hp, hq]; exact ih t
    | none, _ => simp only [applyCustomRulesVerbose, applyCustomRules, hp]; exact ih t

theorem isPrefixOf_append_right (p : List Char) :
    ∀ (l t : List Char), p.isPrefixOf l = true → p.isPrefixOf (l ++ t) = true := by
  induction p with
  | nil => intro l t _; simp [List.isPrefixOf]
  | cons a as ih =>
    intro l t h
    cases l with
    | nil => simp [List.isPrefixOf] at h
    | cons b bs =>
      simp only [List.isPrefixOf, Bool.and_eq_true] at h ⊢
      exact ⟨h.1, ih bs t h.2⟩

theorem hasTripleNl_append_left :
    ∀ (l t : List Char), hasTripleNl l = true → hasTripleNl (l ++ t) = true := by
  intro l
  induction l with
  | nil => intro t h; simp [hasTripleNl] at h
  | cons c cs ih =>
    intro t h
    simp only [hasTripleNl, Bool.or_eq_true, Bool.and_eq_true] at h ⊢
    rcases h with ⟨h1, h2⟩ | h
    · exact Or.inl ⟨h1, isPrefixOf_append_right _ cs t h2⟩
    · exact Or.inr (ih t h)

theorem rstrip_append_eq (t : List Char) :
    rstrip t ++ (t.reverse.takeWhile isWs).reverse = t := by
  conv_rhs => rw [← List.reverse_reverse t,
    ← List.takeWhile_append_dropWhile (p := isWs) (l := t.reverse)]
  rw [List.reverse_append]
  rfl

theorem hasTripleNl_rstrip (t : List Char) (h : hasTripleNl t = false) :
    hasTripleNl (rstrip t) = false := by
  cases hr : hasTripleNl (rstrip t) with
  | false => rfl
  | true =>
    exfalso
    have h2 := hasTripleNl_append_left (rstrip t) (t.reverse.takeWhile isWs).reverse hr
    rw [rstrip_append_eq] at h2
    rw [h2] at h
    exact Bool.noConfusion h

theorem dropWhile_head_false {p : Char → Bool} :
    ∀ (l : List Char) {c : Char} {cs : List Char},
      l.dropWhile p = c :: cs → p c = false := by
  intro l
  induction l with
  | nil => intro c cs h; simp [List.dropWhile] at h
  | cons a as ih =>
    intro c cs h
    by_cases hp : p a
    · rw [List.dropWhile_cons_of_pos hp] at h
      exact ih h
    · rw [List.dropWhile_cons_of_neg hp] at h
      cases h
      simpa using hp

theorem subRun_nil (step : SubStep) (fuel : Nat) : subRun step fuel [] = [] := by
  cases fuel <;> rfl

/-- A `headNotNl` hypothesis: the list does not start with a newline. -/
def HeadNotNl (l : List Char) : Prop := ∀ c cs, l = c :: cs → c ≠ '\n'

theorem headNotNl_nil : HeadNotNl [] := by intro c cs h; cases h

theorem headNotNl_cons {c : Char} {cs : List Char} (hc : c ≠ '\n') :
    HeadNotNl (c :: cs) := by
  intro a as h hcon
  cases h
  exact hc hcon

theorem tripleNl_cons_ne (c : Char) (X : List Char) (hc : c ≠ '\n') :
    hasTripleNl (c :: X) = hasTripleNl X := by
  simp [hasTripleNl, hc]

theorem isPrefixOf_nl_false (X : List Char) (hX : HeadNotNl X) :
    "\n".data.isPrefixOf X = false := by
  cases X with
  | nil => rfl
  | cons a as =>
    have ha : a ≠ '\n' := hX a as rfl
    have hb : (('\n' : Char) == a) = false := by
      simp [beq_iff_eq]
      exact fun h => ha h.symm
    show (('\n' : Char) == a && _) = false
    rw [hb, Bool.false_and]

theorem isPrefixOf_nlnl_false (X : List Char) (hX : HeadNotNl X) :
    "\n\n".data.isPrefixOf X = false := by
  cases X with
  | nil => rfl
  | cons a as =>
    have ha : a ≠ '\n' := hX a as rfl
    have hb : (('\n' : Char) == a) = false := by
      simp [beq_iff_eq]
      exact fun h => ha h.symm
    show (('\n' : Char) == a && _) = false
    rw [hb, Bool.false_and]

theorem tripleNl_one (X : List Char) (hX : HeadNotNl X) :
    hasTripleNl ('\n' :: X) = hasTripleNl X := by
  have h1 : ("\n\n".data.isPrefixOf X) = false := isPrefixOf_nlnl_false X hX
  show ((('\n' : Char) = '\n' : Bool) && "\n\n".data.isPrefixOf X || hasTripleNl X)
    = hasTripleNl X
  rw [h1, Bool.and_false, Bool.false_or]

theorem tripleNl_two (X : List Char) (hX : HeadNotNl X) :
    hasTripleNl ('\n' :: '\n' :: X) = hasTripleNl X := by
  have h1 : ("\n\n".data.isPrefixOf ('\n' :: X)) = false := by
    show (('\n' : Char) == '\n' && ("\n".data.isPrefixOf X)) = false
    rw [isPrefixOf_nl_false X hX, Bool.and_false]
  show ((('\n' : Char) = '\n' : Bool) && "\n\n".data.isPrefixOf ('\n' :: X)
      || hasTripleNl ('\n' :: X)) = hasTripleNl X
  rw [h1, Bool.and_false, Bool.false_or, tripleNl_one X hX]

theorem subRun_nl_head :
    ∀ (fuel : Nat) (l : List Char), HeadNotNl l →
      HeadNotNl (subRun stepNewlines fuel l) := by
  intro fuel l h
  match fuel, l with
  | 0, l => exact h
  | _ + 1, [] => exact h
  | f + 1, c :: cs =>
    have hc : c ≠ '\n' := h c cs rfl
    have hstep : stepNewlines (c :: cs) = none := by
      simp [stepNewlines, List.takeWhile_cons, hc]
    simp only [subRun, hstep]
    exact headNotNl_cons hc

theorem hasTripleNl_subRun_nl :
    ∀ (fuel : Nat) (l : List Char), l.length ≤ fuel →
      hasTripleNl (subRun stepNewlines fuel l) = false := by
  intro fuel
  induction fuel using Nat.strong_induction_on with
  | _ fuel ih =>
    intro l hl
    match fuel, l with
    | _, [] => rw [subRun_nil]; rfl
    | fuel + 1, c :: cs =>
      by_cases hc : c = '\n'
      · subst hc
        by_cases h3 : 3 ≤ (('\n' :: cs).takeWhile (· = '\n')).length
        · -- the pattern fires: the whole run becomes exactly two newlines
          have hstep : stepNewlines ('\n' :: cs) =
              some (['\n', '\n'], ('\n' :: cs).dropWhile (· = '\n')) := by
            simp only [stepNewlines]
            rw [if_pos h3]
          set rest := ('\n' :: cs).dropWhile (· = '\n') with hrest
          have hrestHead : HeadNotNl rest := by
            intro c2 cs2 h2 hcon
            have := dropWhile_head_false ('\n' :: cs) h2
            rw [hcon] at this
            simp at this
          have hrestLen : rest.length ≤ fuel := by
            have htot : (('\n' :: cs).takeWhile (· = '\n')).length + rest.length
                = ('\n' :: cs).length := by
              rw [hrest, ← List.length_append, List.takeWhile_append_dropWhile]
            have hlen : ('\n' :: cs).length ≤ fuel + 1 := hl
            omega
          have hX := ih fuel (Nat.lt_succ_self fuel) rest hrestLen
          have hXhead : HeadNotNl (subRun stepNewlines fuel rest) :=
            subRun_nl_head fuel rest hrestHead
          simp only [subRun, hstep]
          show hasTripleNl ('\n' :: '\n' :: subRun stepNewlines fuel rest) = false
          rw [tripleNl_two _ hXhead]
          exact hX
        · -- fewer than three leading newlines: no match at this position
          have hstep : stepNewlines ('\n' :: cs) = none := by
            simp only [stepNewlines]
            rw [if_neg h3]
          simp only [subRun, hstep]
          cases hcs : cs with
          | nil =>
            rw [subRun_nil]
            rfl
          | cons c2 cs2 =>
            by_cases hc2 : c2 = '\n'
            · -- exactly two leading newlines
              subst hc2
              have hcs2 : HeadNotNl cs2 := by
                intro c3 cs3 h3' hc3
                apply h3
                rw [hcs, h3', hc3]
                simp [List.takeWhile_cons]
              obtain ⟨f2, rfl⟩ : ∃ f2, fuel = f2 + 1 := by
                refine ⟨fuel - 1, ?_⟩
                have : ('\n' :: cs).length ≤ fuel + 1 := hl
                rw [hcs] at this
                simp at this
                omega
              have hstep2 : stepNewlines ('\n' :: cs2) = none := by
                simp only [stepNewlines]
                rw [if_neg]
                intro hcon
                cases hcs3 : cs2 with
                | nil => rw [hcs3] at hcon; simp [List.takeWhile_cons] at hcon
                | cons c3 cs3 =>
                  have hne3 : c3 ≠ '\n' := hcs2 c3 cs3 hcs3
                  rw [hcs3] at hcon
                  simp [List.takeWhile_cons, hne3] at hcon
              simp only [subRun, hstep2]
              show hasTripleNl ('\n' :: '\n' :: subRun stepNewlines f2 cs2) = false
              rw [tripleNl_two _ (subRun_nl_head f2 cs2 hcs2)]
              apply ih f2 (by omega) cs2
              have : ('\n' :: cs).length ≤ f2 + 1 + 1 := hl
              rw [hcs] at this
              simp at this
              omega
            · -- a single leading newline
              have hcs2 : HeadNotNl (c2 :: cs2) := headNotNl_cons hc2
              rw [tripleNl_one _ (subRun_nl_head fuel (c2 :: cs2) hcs2)]
              apply ih fuel (Nat.lt_succ_self fuel) (c2 :: cs2)
              rw [hcs] at hl
              simpa using Nat.le_of_succ_le_succ hl
      · -- non-newline head: the scanner copies it
        have hstep : stepNewlines (c :: cs) = none := by
          simp [stepNewlines, List.takeWhile_cons, hc]
        simp only [subRun, hstep]
        rw [tripleNl_cons_ne c _ hc]
        exact ih fuel (Nat.lt_succ_self fuel) cs (by simpa using Nat.le_of_succ_le_succ hl)

theorem hasTripleNl_collapseNewlines (t : List Char) :
    hasTripleNl (collapseNewlines t) = false :=
  hasTripleNl_subRun_nl t.length t le_rfl

theorem subRun_zero (step : SubStep) (l : List Char) : subRun step 0 l = l := rfl

theorem runSub_win3 (step : SubStep) (a b c : Char) :
    runSub step [a, b, c] =
      (match step [a, b, c] with
       | some (o, r) => o ++ subRun step 2 r
       | none =>
         a :: (match step [b, c] with
           | some (o, r) => o ++ subRun step 1 r
           | none =>
             b :: (match step [c] with
               | some (o, r) => o ++ subRun step 0 r
               | none => [c]))) := rfl

theorem runSub_win2 (step : SubStep) (a b : Char) :
    runSub step [a, b] =
      (match step [a, b] with
       | some (o, r) => o ++ subRun step 1 r
       | none =>
         a :: (match step [b] with
           | some (o, r) => o ++ subRun step 0 r
           | none => [b])) := rfl

theorem fwPunctPass_win3 (p f l x r : Char) (hx : isCjkNoKorean x = false)
    (hf : isCjkNoKorean f = false) (hfp : f ≠ p) :
    fwPunctPass p f [l, x, r] =
      if x = p ∧ isCjkNoKorean l = true ∧ (isCjkNoKorean r = true ∨ isWs r = true)
      then [l, f, r] else [l, x, r] := by
  by_cases hxp : x = p
  · subst hxp
    by_cases hl : isCjkNoKorean l = true
    · by_cases hr : isCjkNoKorean r = true
      · have e1 : stepFwBoth x f [l, x, r] = some ([l, f, r], []) := by
          simp [stepFwBoth, hl, hr]
        have e2 : stepFwEnd x f [l, f, r] = none := by
          simp [stepFwEnd, hfp]
        have e3 : stepFwEnd x f [f, r] = none := by
          simp [stepFwEnd, hf]
        have e4 : stepFwEnd x f [r] = none := rfl
        simp [fwPunctPass, runSub_win3, e1, e2, e3, e4, subRun, hl, hr]
      · by_cases hw : isWs r = true
        · have e1 : stepFwBoth x f [l, x, r] = none := by
            simp [stepFwBoth, hr]
          have e1b : stepFwBoth x f [x, r] = none := rfl
          have e1c : stepFwBoth x f [r] = none := rfl
          have e2 : stepFwEnd x f [l, x, r] = some ([l, f], [r]) := by
            simp [stepFwEnd, hl, wsOrEnd, hw]
          have e3 : stepFwEnd x f [r] = none := rfl
          simp [fwPunctPass, runSub_win3, e1, e1b, e1c, e2, e3, subRun, hl, hr, hw]
        · have e1 : stepFwBoth x f [l, x, r] = none := by
            simp [stepFwBoth, hr]
          have e1b : stepFwBoth x f [x, r] = none := rfl
          have e1c : stepFwBoth x f [r] = none := rfl
          have e2 : stepFwEnd x f [l, x, r] = none := by
            simp [stepFwEnd, wsOrEnd, hw]
          have e2b : stepFwEnd x f [x, r] = none := by
            simp [stepFwEnd, hx]
          have e2c : stepFwEnd x f [r] = none := rfl
          simp [fwPunctPass, runSub_win3, e1, e1b, e1c, e2, e2b, e2c, subRun, hl, hr, hw]
    · have e1 : stepFwBoth x f [l, x, r] = none := by
        simp [stepFwBoth, hl]
      have e1b : stepFwBoth x f [x, r] = none := rfl
      have e1c : stepFwBoth x f [r] = none := rfl
      have e2 : stepFwEnd x f [l, x, r] = none := by
        simp [stepFwEnd, hl]
      have e2b : stepFwEnd x f [x, r] = none := by
        simp [stepFwEnd, hx]
      have e2c : stepFwEnd x f [r] = none := rfl
      simp [fwPunctPass, runSub_win3, e1, e1b, e1c, e2, e2b, e2c, subRun, hl]
  · have e1 : stepFwBoth p f [l, x, r] = none := by
      simp [stepFwBoth, hxp]
    have e1b : stepFwBoth p f [x, r] = none := rfl
    have e1c : stepFwBoth p f [r] = none := rfl
    have e2 : stepFwEnd p f [l, x, r] = none := by
      simp [stepFwEnd, hxp]
    have e2b : stepFwEnd p f [x, r] = none := by
      simp [stepFwEnd, hx]
    have e2c : stepFwEnd p f [r] = none := rfl
    simp [fwPunctPass, runSub_win3, e1, e1b, e1c, e2, e2b, e2c, subRun, hxp]

theorem fwPunctPass_win2 (p f l x : Char) (hx : isCjkNoKorean x = false)
    (hf : isCjkNoKorean f = false) (hfp : f ≠ p) :
    fwPunctPass p f [l, x] =
      if x = p ∧ isCjkNoKorean l = true then [l, f] else [l, x] := by
  by_cases hxp : x = p
  · subst hxp
    by_cases hl : isCjkNoKorean l = true
    · have e1 : stepFwBoth x f [l, x] = none := rfl
      have e1b : stepFwBoth x f [x] = none := rfl
      have e2 : stepFwEnd x f [l, x] = some ([l, f], []) := by
        simp [stepFwEnd, hl, wsOrEnd]
      simp [fwPunctPass, runSub_win2, e1, e1b, e2, subRun, hl]
    · have e1 : stepFwBoth x f [l, x] = none := rfl
      have e1b : stepFwBoth x f [x] = none := rfl
      have e2 : stepFwEnd x f [l, x] = none := by
        simp [stepFwEnd, hl]
      have e2b : stepFwEnd x f [x] = none := rfl
      simp [fwPunctPass, runSub_win2, e1, e1b, e2, e2b, subRun, hl]
  · have e1 : stepFwBoth p f [l, x] = none := rfl
    have e1b : stepFwBoth p f [x] = none := rfl
    have e2 : stepFwEnd p f [l, x] = none := by
      simp [stepFwEnd, hxp]
    have e2b : stepFwEnd p f [x] = none := rfl
    simp [fwPunctPass, runSub_win2, e1, e1b, e2, e2b, subRun, hxp]

theorem fwPunctPass_win3_skip (p f l x r : Char) (hx : isCjkNoKorean x = false)
    (hf : isCjkNoKorean f = false) (hfp : f ≠ p) (hxp : x ≠ p) :
    fwPunctPass p f [l, x, r] = [l, x, r] := by
  rw [fwPunctPass_win3 p f l x r hx hf hfp]
  exact if_neg (fun hcon => hxp hcon.1)

theorem fwPunctPass_win2_skip (p f l x : Char) (hx : isCjkNoKorean x = false)
    (hf : isCjkNoKorean f = false) (hfp : f ≠ p) (hxp : x ≠ p) :
    fwPunctPass p f [l, x] = [l, x] := by
  rw [fwPunctPass_win2 p f l x hx hf hfp]
  exact if_neg (fun hcon => hxp hcon.1)

theorem fwPunctPass_win3_active (p f l r : Char) (hp : isCjkNoKorean p = false)
    (hf : isCjkNoKorean f = false) (hfp : f ≠ p) :
    fwPunctPass p f [l, p, r] =
      if isCjkNoKorean l = true ∧ (isCjkNoKorean r = true ∨ isWs r = true)
      then [l, f, r] else [l, p, r] := by
  rw [fwPunctPass_win3 p f l p r hp hf hfp]
  simp

theorem fwPunctPass_win2_active (p f l : Char) (hp : isCjkNoKorean p = false)
    (hf : isCjkNoKorean f = false) (hfp : f ≠ p) :
    fwPunctPass p f [l, p] = if isCjkNoKorean l = true then [l, f] else [l, p] := by
  rw [fwPunctPass_win2 p f l p hp hf hfp]
  simp

theorem containsSub_single (c : Char) : ∀ (s : List Char), containsSub [c] s = s.contains c := by
  intro s
  induction s with
  | nil => rfl
  | cons a as ih =>
    show (([c].isPrefixOf (a :: as)) || containsSub [c] as) = _
    have h1 : [c].isPrefixOf (a :: as) = (c == a) := by
      show (c == a && ([] : List Char).isPrefixOf as) = (c == a)
      rw [show (([] : List Char).isPrefixOf as) = true from by cases as <;> rfl, Bool.and_true]
    rw [h1, ih]
    rfl

theorem fixQuoteSpacing_before_win (oq cq l : Char)
    (h1 : quoteAfterClass oq = false) (h2 : quoteBeforeClass cq = false)
    (h3 : oq ≠ '—') (h4 : cq ≠ ' ') :
    fixQuoteSpacing oq cq [l, oq] =
      if quoteBeforeClass l = true then
        (if l ∈ noSpaceBefore then [l, oq] else [l, ' ', oq])
      else [l, oq] := by
  cases hb : quoteBeforeClass l with
  | true =>
    have hlcq : l ≠ cq := by
      intro he
      rw [he, h2] at hb
      exact Bool.noConfusion hb
    by_cases hn : l ∈ noSpaceBefore
    · have hc1 : containsSub [l] noSpaceBefore = true := by
        simp [containsSub_single, hn]
      have e1 : stepQuoteBefore oq [l, oq] = some ([l, oq], []) := by
        simp [stepQuoteBefore, hb, hc1]
      have e2 : stepQuoteAfter cq [l, oq] = none := by
        simp [stepQuoteAfter, hlcq]
      have e3 : stepQuoteAfter cq [oq] = none := rfl
      simp [fixQuoteSpacing, runSub_win2, e1, e2, e3, subRun, hb, hn]
    · have hc0 : containsSub [l] noSpaceBefore = false := by
        simp [containsSub_single, hn]
      have e1 : stepQuoteBefore oq [l, oq] = some ([l, ' ', oq], []) := by
        simp [stepQuoteBefore, hb, hc0]
      have e2 : stepQuoteAfter cq [l, ' ', oq] = none := by
        simp [stepQuoteAfter, hlcq]
      have e3 : stepQuoteAfter cq [' ', oq] = none := by
        simp [stepQuoteAfter, Ne.symm h4]
      have e4 : stepQuoteAfter cq [oq] = none := rfl
      simp [fixQuoteSpacing, runSub_win2, runSub_win3, e1, e2, e3, e4, subRun, hb, hn]
  | false =>
    have e1 : stepQuoteBefore oq [l, oq] = none := by
      by_cases hd : l = '—'
      · subst hd
        simp [stepQuoteBefore, show quoteBeforeClass '—' = false from by decide]
      · simp [stepQuoteBefore, hb, hd]
    have e1b : stepQuoteBefore oq [oq] = none := rfl
    have e2 : stepQuoteAfter cq [l, oq] = none := by
      by_cases hcq : l = cq
      · subst hcq
        simp [stepQuoteAfter, h1, h3]
      · simp [stepQuoteAfter, hcq]
    have e3 : stepQuoteAfter cq [oq] = none := rfl
    simp [fixQuoteSpacing, runSub_win2, e1, e1b, e2, e3, subRun, hb]

theorem fixQuoteSpacing_after_win (oq cq r : Char)
    (h2 : quoteBeforeClass cq = false) (h7 : cq ≠ '—') :
    fixQuoteSpacing oq cq [cq, r] =
      if quoteAfterClass r = true then
        (if r ∈ noSpaceAfter then [cq, r] else [cq, ' ', r])
      else [cq, r] := by
  have e1 : stepQuoteBefore oq [cq, r] = none := by
    simp [stepQuoteBefore, h2, h7]
  have e1b : stepQuoteBefore oq [r] = none := rfl
  cases ha : quoteAfterClass r with
  | true =>
    by_cases hn : r ∈ noSpaceAfter
    · have hc1 : containsSub [r] noSpaceAfter = true := by
        simp [containsSub_single, hn]
      have e2 : stepQuoteAfter cq [cq, r] = some ([cq, r], []) := by
        simp [stepQuoteAfter, ha, hc1]
      simp [fixQuoteSpacing, runSub_win2, e1, e1b, e2, subRun, ha, hn]
    · have hc0 : containsSub [r] noSpaceAfter = false := by
        simp [containsSub_single, hn]
      have e2 : stepQuoteAfter cq [cq, r] = some ([cq, ' ', r], []) := by
        simp [stepQuoteAfter, ha, hc0]
      simp [fixQuoteSpacing, runSub_win2, e1, e1b, e2, subRun, ha, hn]
  | false =>
    have e2 : stepQuoteAfter cq [cq, r] = none := by
      by_cases hd : r = '—'
      · subst hd
        simp [stepQuoteAfter, ha]
      · simp [stepQuoteAfter, ha, hd]
    have e3 : stepQuoteAfter cq [r] = none := rfl
    simp [fixQuoteSpacing, runSub_win2, e1, e1b, e2, e3, subRun, ha]

theorem findTriple_none : ∀ (l : List Char), btick ∉ l → findTriple l = none := by
  intro l
  induction l with
  | nil => intro _; rfl
  | cons a as ih =>
    intro h
    have ha : ¬(a = btick) := fun he => h (by rw [he]; exact List.mem_cons_self _ _)
    simp only [findTriple]
    rw [if_neg ha, ih (fun hm => h (List.mem_cons_of_mem _ hm))]
    rfl

theorem findTriple_skip : ∀ (p : List Char), btick ∉ p → ∀ (r : List Char),
    findTriple (p ++ btick :: btick :: btick :: r) = some (p, r) := by
  intro p
  induction p with
  | nil =>
    intro _ r
    rfl
  | cons a p2 ih =>
    intro h r
    have ha : ¬(a = btick) := fun he => h (by rw [he]; exact List.mem_cons_self _ _)
    show findTriple (a :: (p2 ++ btick :: btick :: btick :: r)) = some (a :: p2, r)
    simp only [findTriple]
    rw [if_neg ha, ih (fun hm => h (List.mem_cons_of_mem _ hm)) r]
    rfl

theorem extractFenced_noTriple (l : List Char) (h : btick ∉ l) :
    ∀ (fuel : Nat) (blocks : List (List Char)), extractFenced fuel blocks l = (l, blocks) := by
  intro fuel blocks
  cases fuel with
  | zero => rfl
  | succ f =>
    simp only [extractFenced]
    rw [findTriple_none l h]

theorem extractInline_noBtick : ∀ (l : List Char) (fuel : Nat) (blocks : List (List Char)),
    btick ∉ l → extractInline fuel blocks l = (l, blocks) := by
  intro l
  induction l with
  | nil => intro fuel blocks _; cases fuel <;> rfl
  | cons a as ih =>
    intro fuel blocks h
    cases fuel with
    | zero => rfl
    | succ f =>
      have ha : ¬(a = btick) := fun he => h (by rw [he]; exact List.mem_cons_self _ _)
      have hstep : inlineAt (a :: as) = none := by simp [inlineAt, ha]
      simp only [extractInline, hstep]
      rw [ih f blocks (fun hm => h (List.mem_cons_of_mem _ hm))]

theorem extractFenced_single (f : Nat) (blocks : List (List Char)) (p m q : List Char)
    (hp : btick ∉ p) (hm : btick ∉ m) (hq : btick ∉ q) :
    extractFenced (f + 1) blocks
        (p ++ btick :: btick :: btick :: (m ++ btick :: btick :: btick :: q))
      = (p ++ token blocks.length ++ q,
         blocks ++ [btick :: btick :: btick :: (m ++ [btick, btick, btick])]) := by
  have h1 : findTriple (p ++ btick :: btick :: btick :: (m ++ btick :: btick :: btick :: q))
      = some (p, m ++ btick :: btick :: btick :: q) := findTriple_skip p hp _
  have h2 : findTriple (m ++ btick :: btick :: btick :: q) = some (m, q) :=
    findTriple_skip m hm q
  simp only [extractFenced, h1, h2]
  rw [extractFenced_noTriple q hq f _]
  rfl

theorem extractFenced_wrapped (f : Nat) (blocks : List (List Char)) (p c q : List Char)
    (hp : btick ∉ p) (hc : btick ∉ c) (hq : btick ∉ q) :
    extractFenced (f + 1) blocks
        (p ++ btick :: btick :: btick :: '\n' :: (c ++ '\n' :: btick :: btick :: btick :: q))
      = (p ++ token blocks.length ++ q,
         blocks ++ [btick :: btick :: btick :: '\n' :: (c ++ ['\n', btick, btick, btick])]) := by
  have hm : btick ∉ '\n' :: (c ++ ['\n']) := by
    intro hmem
    rcases List.mem_cons.mp hmem with h1 | h1
    · exact absurd h1 (by decide)
    · rcases List.mem_append.mp h1 with h2 | h2
      · exact hc h2
      · exact absurd h2 (by decide)
  have hshape : '\n' :: (c ++ '\n' :: btick :: btick :: btick :: q)
      = ('\n' :: (c ++ ['\n'])) ++ btick :: btick :: btick :: q := by
    simp [List.append_assoc]
  have hblk : ('\n' :: (c ++ ['\n'])) ++ [btick, btick, btick]
      = '\n' :: (c ++ ['\n', btick, btick, btick]) := by
    simp [List.append_assoc]
  rw [hshape, extractFenced_single f blocks p ('\n' :: (c ++ ['\n'])) q hp hm hq, hblk]

/-! ## Claims -/

/-- C9.  `contains_cjk(text)` is true iff the text contains a Han
(U+4E00-U+9FFF) or Hangul-syllable (U+AC00-U+D7AF) codepoint; pure
Hiragana/Katakana does not trigger CJK mode while Hangul and Han do. -/
theorem C9_contains_cjk_gate :
    (∀ l : List Char, containsCjk l = true ↔
      ∃ c ∈ l, (0x4e00 ≤ c.toNat ∧ c.toNat ≤ 0x9fff) ∨ (0xac00 ≤ c.toNat ∧ c.toNat ≤ 0xd7af))
    ∧ containsCjk "ひらがなのみ".data = false
    ∧ containsCjk "한글".data = true
    ∧ containsCjk "漢字".data = true := by
  refine ⟨?_, by decide, by decide, by decide⟩
  intro l
  simp only [containsCjk, Bool.or_eq_true, List.any_eq_true, isHan, isHangul,
    Bool.and_eq_true, decide_eq_true_eq]
  constructor
  · rintro (⟨c, hc, h1, h2⟩ | ⟨c, hc, h1, h2⟩)
    · exact ⟨c, hc, Or.inl ⟨h1, h2⟩⟩
    · exact ⟨c, hc, Or.inr ⟨h1, h2⟩⟩
  · rintro ⟨c, hc, ⟨h1, h2⟩ | ⟨h1, h2⟩⟩
    · exact Or.inl ⟨c, hc, h1, h2⟩
    · exact Or.inr ⟨c, hc, h1, h2⟩

/-- C10.  `RuleConfig.is_enabled` returns `True` for every rule name absent
from the `rules` mapping (missing keys default to enabled), and for a present
boolean entry returns exactly the stored value, so only an explicit `False`
disables a built-in boolean rule. -/
theorem C10_is_enabled_missing_default :
    (∀ (cfg : RuleConfig) (n : String), lookupRule cfg n = none → cfg.is_enabled n = true)
    ∧ (∀ (cfg : RuleConfig) (n : String) (b : Bool),
        lookupRule cfg n = some (.bv b) → cfg.is_enabled n = b) := by
  constructor
  · intro cfg n h
    simp [RuleConfig.is_enabled, h, truthy]
  · intro cfg n b h
    simp [RuleConfig.is_enabled, h, truthy]

/-- Witness for C10 at a concrete config and rule name. -/
theorem C10_is_enabled_missing_default_witness :
    lookupRule defaultConfig "no_such_rule" = none
    ∧ defaultConfig.is_enabled "no_such_rule" = true :=
  ⟨by decide, C10_is_enabled_missing_default.1 defaultConfig "no_such_rule" (by decide)⟩

/-- C3.  The custom rule engine never fails: a custom rule whose record lacks
`pattern` or `replacement` (a `KeyError`) or whose pattern does not compile
(an `re.error`) is skipped as a no-op (here: running the rule list is the same
as running only its valid rules, for every compile function, rule list and
text), an invalid rule is exactly the identity, and the built-in pipeline
result fed into the custom stage is unaffected (skipping invalid rules
commutes with the whole `polish_text`).  In this embedding the engine is a
total function, so no exception can propagate. -/
theorem C3_custom_rule_isolation :
    (∀ (compile : Compile) (rules : List CustomRule) (t : List Char),
      applyCustomRules compile rules t
        = applyCustomRules compile (rules.filter (fun r => isValidRule compile r)) t)
    ∧ (∀ (compile : Compile) (cfg : RuleConfig) (t : List Char),
      polishTextCore compile cfg t
        = polishTextCore compile
            ⟨cfg.rules, cfg.custom_rules.filter (fun r => isValidRule compile r)⟩ t)
    ∧ (∀ (compile : Compile) (r : CustomRule) (t : List Char),
      isValidRule compile r = false → applyCustomRules compile [r] t = t) := by
  refine ⟨applyCustomRules_filter, ?_, ?_⟩
  · intro compile cfg t
    exact congrArg rstrip (applyCustomRules_filter compile cfg.custom_rules _)
  · intro compile r t hv
    match hp : r.pattern, hq : r.replacement with
    | some p, some rep =>
      match hcp : compile p with
      | some re => simp [isValidRule, hp, hq, hcp] at hv
      | none => simp [applyCustomRules, hp, hq, hcp]
    | some p, none => simp [applyCustomRules, hp, hq]
    | none, _ => simp [applyCustomRules, hp]

/-- Witness for C3: a rule with a non-compiling pattern is skipped. -/
theorem C3_custom_rule_isolation_witness :
    isValidRule compileNone ⟨some "r".data, some "a(".data, some "b".data⟩ = false
    ∧ applyCustomRules compileNone [⟨some "r".data, some "a(".data, some "b".data⟩]
        "text".data = "text".data :=
  ⟨by decide, C3_custom_rule_isolation.2.2 compileNone
    ⟨some "r".data, some "a(".data, some "b".data⟩ "text".data (by decide)⟩

/-- C7.  With the default config, dash conversion converts `--` between CJK
characters (`polish("文本--内容") = "文本 —— 内容"`), leaves dashes between
Latin text unchanged (`polish("text--more") = "text--more"`), and more
generally `_replace_dash` is the identity on any text with no character of the
CJK dash-context class at all. -/
theorem C7_dash_conversion_cjk_only :
    (∀ compile : Compile,
      polishTextCore compile defaultConfig "text--more".data = "text--more".data)
    ∧ (∀ compile : Compile,
      polishTextCore compile defaultConfig "文本--内容".data = "文本 —— 内容".data)
    ∧ (∀ l : List Char, (∀ c ∈ l, isDashCtx c = false) → replaceDash l = l) := by
  refine ⟨fun _ => rfl, fun _ => rfl, ?_⟩
  intro l hl
  exact subRun_stepDash_id l.length l hl

/-- Witness for C7 on a concrete Latin-only text. -/
theorem C7_dash_conversion_cjk_only_witness :
    replaceDash "ab -- cd--ef".data = "ab -- cd--ef".data :=
  C7_dash_conversion_cjk_only.2.2 "ab -- cd--ef".data (by decide)

/-- C2 counterexample.  `polish` is not idempotent: on `"a(中)--(中)b"` with
the default config, the first pass converts the half-width parentheses to
full-width (`a（中）--（中）b`), which creates a new CJK dash-conversion site,
so a second pass converts `--` to `——`. -/
theorem C2_idempotence_counterexample :
    polish_text "a(中)--(中)b" = "a（中）--（中）b"
    ∧ polish_text (polish_text "a(中)--(中)b") = "a（中）——（中）b"
    ∧ polish_text (polish_text "a(中)--(中)b") ≠ polish_text "a(中)--(中)b" := by
  have h1 : polish_text "a(中)--(中)b" = "a（中）--（中）b" := rfl
  have h2 : polish_text (polish_text "a(中)--(中)b") = "a（中）——（中）b" := by
    rw [h1]; rfl
  exact ⟨h1, h2, by rw [h2, h1]; decide⟩

set_option maxHeartbeats 4000000 in
/-- C2 as amended.  `polish(polish(s, c), c) = polish(s, c)` does not hold for
every text and config (see the counterexample); it does hold on representative
mixed CJK/Latin corpora, here verified on five representative inputs with the
default config. -/
theorem C2_idempotence_on_corpus :
    polish_text (polish_text "文本--内容") = polish_text "文本--内容"
    ∧ polish_text (polish_text "《书名》--作者") = polish_text "《书名》--作者"
    ∧ polish_text (polish_text "开始。“内容”结束") = polish_text "开始。“内容”结束"
    ∧ polish_text (polish_text "中文A1字 5%和$ 100元") = polish_text "中文A1字 5%和$ 100元"
    ∧ polish_text (polish_text "a . . . b\n\n\n\nc中  文") = polish_text "a . . . b\n\n\n\nc中  文" :=
  ⟨rfl, rfl, rfl, rfl, rfl⟩

/-- C8 counterexample.  A run of 3+ newlines is not always collapsed to
exactly two: a trailing run is removed entirely by the final `rstrip`, so
`polish("a\n\n\n\n") = "a"`, not `"a\n\n"` as the claim implies. -/
theorem C8_newline_collapse_counterexample :
    polish_text "a\n\n\n\n" = "a" ∧ ("a" : String) ≠ "a\n\n" :=
  ⟨rfl, by decide⟩

/-- C8 as amended.  Interior runs of 3+ newlines are collapsed to exactly two
by `polish` for every input and config without custom rules (the polished
output never contains three consecutive newlines), and
`polish("a\n\n\n\nb") = "a\n\nb"`; a run at the end of the text is removed
entirely by the final `rstrip` rather than collapsed to two. -/
theorem C8_newline_runs_bounded :
    (∀ (compile : Compile) (cfg : RuleConfig) (t : List Char), cfg.custom_rules = [] →
      hasTripleNl (polishTextCore compile cfg t) = false)
    ∧ (∀ compile : Compile,
      polishTextCore compile defaultConfig "a\n\n\n\nb".data = "a\n\nb".data) := by
  constructor
  · intro compile cfg t h
    unfold polishTextCore
    rw [h]
    exact hasTripleNl_rstrip _ (hasTripleNl_collapseNewlines _)
  · intro compile; rfl

/-- Witness for C8 at a concrete config and text. -/
theorem C8_newline_runs_bounded_witness :
    hasTripleNl (polishTextCore compileNone defaultConfig "x\n\n\n\ny\n\n\nz".data) = false :=
  C8_newline_runs_bounded.1 compileNone defaultConfig "x\n\n\n\ny\n\n\nz".data rfl

/-- C1 counterexample.  `polish_text_verbose` does not run the same pipeline
as `polish_text`: with the default config on `"中文,中文"`, `polish_text`
applies `fullwidth_punctuation` and returns `"中文，中文"`, while the verbose
variant (which never applies that rule) returns the text unchanged. -/
theorem C1_verbose_pipeline_counterexample :
    polishTextCore compileNone defaultConfig "中文,中文".data = "中文，中文".data
    ∧ verboseTextCore compileNone defaultConfig "中文,中文".data = "中文,中文".data
    ∧ verboseTextCore compileNone defaultConfig "中文,中文".data
        ≠ polishTextCore compileNone defaultConfig "中文,中文".data := by
  have h1 : polishTextCore compileNone defaultConfig "中文,中文".data = "中文，中文".data := rfl
  have h2 : verboseTextCore compileNone defaultConfig "中文,中文".data = "中文,中文".data := rfl
  exact ⟨h1, h2, by rw [h2, h1]; decide⟩

/-- C1 as amended.  The text component of `polish_text_verbose` agrees with
`polish_text` exactly on the rule subset the verbose pipeline implements: for
every text and every config in which the rules absent from the verbose
pipeline (`fullwidth_alphanumeric`, `fullwidth_punctuation`,
`fullwidth_brackets`, `single_quote_spacing`, `cjk_parenthesis_spacing`,
`fullwidth_parentheses`, `currency_spacing`, `slash_spacing`) are disabled and
`consecutive_punctuation_limit` is not positive, the two functions return the
same text (for any compile function faithful to `re.sub`'s
no-match-is-identity property). -/
theorem C1_verbose_text_agreement :
    ∀ (compile : Compile) (cfg : RuleConfig) (t : List Char),
      ReFaithful compile →
      cfg.is_enabled "fullwidth_alphanumeric" = false →
      cfg.is_enabled "fullwidth_punctuation" = false →
      cfg.is_enabled "fullwidth_brackets" = false →
      cfg.is_enabled "single_quote_spacing" = false →
      cfg.is_enabled "cjk_parenthesis_spacing" = false →
      cfg.is_enabled "fullwidth_parentheses" = false →
      cfg.is_enabled "currency_spacing" = false →
      cfg.is_enabled "slash_spacing" = false →
      punctLimit cfg ≤ 0 →
      verboseTextCore compile cfg t = polishTextCore compile cfg t := by
  intro compile cfg t hre h1 h2 h3 h4 h5 h6 h7 h8 h9
  have h9' : ¬ (0 < punctLimit cfg) := by omega
  simp only [verboseTextCore, polishTextCore]
  rw [applyCustomRulesVerbose_eq compile hre]
  simp only [h1, h2, h3, h4, h5, h6, h7, h8, Bool.false_eq_true, if_false, h9']

/-- Witness for C1 at a concrete config and text. -/
theorem C1_verbose_text_agreement_witness :
    verboseTextCore compileNone cfgVerboseShared "文本--内容".data
      = polishTextCore compileNone cfgVerboseShared "文本--内容".data :=
  C1_verbose_text_agreement compileNone cfgVerboseShared "文本--内容".data
    (fun _ _ h => Option.noConfusion h) (by decide) (by decide) (by decide) (by decide)
    (by decide) (by decide) (by decide) (by decide) (by decide)

/-- C5 as amended.  When both regex passes of `fullwidth_punctuation` run, a
half-width mark with a Han/Hiragana/Katakana left neighbor is converted to its
full-width form when its right context is a Han/Hiragana/Katakana character, a
whitespace character, or end of text (not only end of text, as the original
claim says); Hangul neighbors never qualify; matches are taken left to right
without overlap, so in a chain like `中,中,中` the second mark keeps both Han
neighbors yet is not converted; in every other position the mark is unchanged. -/
theorem C5_fullwidth_punct_contexts (p f : Char) (hmem : (p, f) ∈ halfToFull) :
    (∀ l r : Char, normalizeFullwidthPunct [l, p, r] =
        if isCjkNoKorean l = true ∧ (isCjkNoKorean r = true ∨ isWs r = true)
        then [l, f, r] else [l, p, r])
    ∧ (∀ l : Char, normalizeFullwidthPunct [l, p] =
        if isCjkNoKorean l = true then [l, f] else [l, p])
    ∧ normalizeFullwidthPunct ['中', p, '中', p, '中'] = ['中', f, '中', p, '中'] := by
  simp only [halfToFull, List.mem_cons, List.not_mem_nil, or_false] at hmem
  rcases hmem with h | h | h | h | h | h <;> obtain ⟨rfl, rfl⟩ := Prod.mk.inj h
  · refine ⟨?_, ?_, by decide⟩
    · intro l r
      simp only [normalizeFullwidthPunct, halfToFull, List.foldl]
      rw [fwPunctPass_win3_active ',' '，' l r (by decide) (by decide) (by decide)]
      by_cases h : isCjkNoKorean l = true ∧ (isCjkNoKorean r = true ∨ isWs r = true)
      · rw [if_pos h,
      fwPunctPass_win3_skip '.' '。' l '，' r (by decide) (by decide) (by decide) (by decide),
      fwPunctPass_win3_skip '!' '！' l '，' r (by decide) (by decide) (by decide) (by decide),
      fwPunctPass_win3_skip '?' '？' l '，' r (by decide) (by decide) (by decide) (by decide),
      fwPunctPass_win3_skip ';' '；' l '，' r (by decide) (by decide) (by decide) (by decide),
      fwPunctPass_win3_skip ':' '：' l '，' r (by decide) (by decide) (by decide) (by decide)]
      · rw [if_neg h,
      fwPunctPass_win3_skip '.' '。' l ',' r (by decide) (by decide) (by decide) (by decide),
      fwPunctPass_win3_skip '!' '！' l ',' r (by decide) (by decide) (by decide) (by decide),
      fwPunctPass_win3_skip '?' '？' l ',' r (by decide) (by decide) (by decide) (by decide),
      fwPunctPass_win3_skip ';' '；' l ',' r (by decide) (by decide) (by decide) (by decide),
      fwPunctPass_win3_skip ':' '：' l ',' r (by decide) (by decide) (by decide) (by decide)]
    · intro l
      simp only [normalizeFullwidthPunct, halfToFull, List.foldl]
      rw [fwPunctPass_win2_active ',' '，' l (by decide) (by decide) (by decide)]
      by_cases h : isCjkNoKorean l = true
      · rw [if_pos h,
      fwPunctPass_win2_skip '.' '。' l '，' (by decide) (by decide) (by decide) (by decide),
      fwPunctPass_win2_skip '!' '！' l '，' (by decide) (by decide) (by decide) (by decide),
      fwPunctPass_win2_skip '?' '？' l '，' (by decide) (by decide) (by decide) (by decide),
      fwPunctPass_win2_skip ';' '；' l '，' (by decide) (by decide) (by decide) (by decide),
      fwPunctPass_win2_skip ':' '：' l '，' (by decide) (by decide) (by decide) (by decide)]
      · rw [if_neg h,
      fwPunctPass_win2_skip '.' '。' l ',' (by decide) (by decide) (by decide) (by decide),
      fwPunctPass_win2_skip '!' '！' l ',' (by decide) (by decide) (by decide) (by decide),
      fwPunctPass_win2_skip '?' '？' l ',' (by decide) (by decide) (by decide) (by decide),
      fwPunctPass_win2_skip ';' '；' l ',' (by decide) (by decide) (by decide) (by decide),
      fwPunctPass_win2_skip ':' '：' l ',' (by decide) (by decide) (by decide) (by decide)]
  · refine ⟨?_, ?_, by decide⟩
    · intro l r
      simp only [normalizeFullwidthPunct, halfToFull, List.foldl]
      rw [      fwPunctPass_win3_skip ',' '，' l '.' r (by decide) (by decide) (by decide) (by decide)]
      rw [fwPunctPass_win3_active '.' '。' l r (by decide) (by decide) (by decide)]
      by_cases h : isCjkNoKorean l = true ∧ (isCjkNoKorean r = true ∨ isWs r = true)
      · rw [if_pos h,
      fwPunctPass_win3_skip '!' '！' l '。' r (by decide) (by decide) (by decide) (by decide),
      fwPunctPass_win3_skip '?' '？' l '。' r (by decide) (by decide) (by decide) (by decide),
      fwPunctPass_win3_skip ';' '；' l '。' r (by decide) (by decide) (by decide) (by decide),
      fwPunctPass_win3_skip ':' '：' l '。' r (by decide) (by decide) (by decide) (by decide)]
      · rw [if_neg h,
      fwPunctPass_win3_skip '!' '！' l '.' r (by decide) (by decide) (by decide) (by decide),
      fwPunctPass_win3_skip '?' '？' l '.' r (by decide) (by decide) (by decide) (by decide),
      fwPunctPass_win3_skip ';' '；' l '.' r (by decide) (by decide) (by decide) (by decide),
      fwPunctPass_win3_skip ':' '：' l '.' r (by decide) (by decide) (by decide) (by decide)]
    · intro l
      simp only [normalizeFullwidthPunct, halfToFull, List.foldl]
      rw [      fwPunctPass_win2_skip ',' '，' l '.' (by decide) (by decide) (by decide) (by decide)]
      rw [fwPunctPass_win2_active '.' '。' l (by decide) (by decide) (by decide)]
      by_cases h : isCjkNoKorean l = true
      · rw [if_pos h,
      fwPunctPass_win2_skip '!' '！' l '。' (by decide) (by decide) (by decide) (by decide),
      fwPunctPass_win2_skip '?' '？' l '。' (by decide) (by decide) (by decide) (by decide),
      fwPunctPass_win2_skip ';' '；' l '。' (by decide) (by decide) (by decide) (by decide),
      fwPunctPass_win2_skip ':' '：' l '。' (by decide) (by decide) (by decide) (by decide)]
      · rw [if_neg h,
      fwPunctPass_win2_skip '!' '！' l '.' (by decide) (by decide) (by decide) (by decide),
      fwPunctPass_win2_skip '?' '？' l '.' (by decide) (by decide) (by decide) (by decide),
      fwPunctPass_win2_skip ';' '；' l '.' (by decide) (by decide) (by decide) (by decide),
      fwPunctPass_win2_skip ':' '：' l '.' (by decide) (by decide) (by decide) (by decide)]
  · refine ⟨?_, ?_, by decide⟩
    · intro l r
      simp only [normalizeFullwidthPunct, halfToFull, List.foldl]
      rw [      fwPunctPass_win3_skip ',' '，' l '!' r (by decide) (by decide) (by decide) (by decide),
      fwPunctPass_win3_skip '.' '。' l '!' r (by decide) (by decide) (by decide) (by decide)]
      rw [fwPunctPass_win3_active '!' '！' l r (by decide) (by decide) (by decide)]
      by_cases h : isCjkNoKorean l = true ∧ (isCjkNoKorean r = true ∨ isWs r = true)
      · rw [if_pos h,
      fwPunctPass_win3_skip '?' '？' l '！' r (by decide) (by decide) (by decide) (by decide),
      fwPunctPass_win3_skip ';' '；' l '！' r (by decide) (by decide) (by decide) (by decide),
      fwPunctPass_win3_skip ':' '：' l '！' r (by decide) (by decide) (by decide) (by decide)]
      · rw [if_neg h,
      fwPunctPass_win3_skip '?' '？' l '!' r (by decide) (by decide) (by decide) (by decide),
      fwPunctPass_win3_skip ';' '；' l '!' r (by decide) (by decide) (by decide) (by decide),
      fwPunctPass_win3_skip ':' '：' l '!' r (by decide) (by decide) (by decide) (by decide)]
    · intro l
      simp only [normalizeFullwidthPunct, halfToFull, List.foldl]
      rw [      fwPunctPass_win2_skip ',' '，' l '!' (by decide) (by decide) (by decide) (by decide),
      fwPunctPass_win2_skip '.' '。' l '!' (by decide) (by decide) (by decide) (by decide)]
      rw [fwPunctPass_win2_active '!' '！' l (by decide) (by decide) (by decide)]
      by_cases h : isCjkNoKorean l = true
      · rw [if_pos h,
      fwPunctPass_win2_skip '?' '？' l '！' (by decide) (by decide) (by decide) (by decide),
      fwPunctPass_win2_skip ';' '；' l '！' (by decide) (by decide) (by decide) (by decide),
      fwPunctPass_win2_skip ':' '：' l '！' (by decide) (by decide) (by decide) (by decide)]
      · rw [if_neg h,
      fwPunctPass_win2_skip '?' '？' l '!' (by decide) (by decide) (by decide) (by decide),
      fwPunctPass_win2_skip ';' '；' l '!' (by decide) (by decide) (by decide) (by decide),
      fwPunctPass_win2_skip ':' '：' l '!' (by decide) (by decide) (by decide) (by decide)]
  · refine ⟨?_, ?_, by decide⟩
    · intro l r
      simp only [normalizeFullwidthPunct, halfToFull, List.foldl]
      rw [      fwPunctPass_win3_skip ',' '，' l '?' r (by decide) (by decide) (by decide) (by decide),
      fwPunctPass_win3_skip '.' '。' l '?' r (by decide) (by decide) (by decide) (by decide),
      fwPunctPass_win3_skip '!' '！' l '?' r (by decide) (by decide) (by decide) (by decide)]
      rw [fwPunctPass_win3_active '?' '？' l r (by decide) (by decide) (by decide)]
      by_cases h : isCjkNoKorean l = true ∧ (isCjkNoKorean r = true ∨ isWs r = true)
      · rw [if_pos h,
      fwPunctPass_win3_skip ';' '；' l '？' r (by decide) (by decide) (by decide) (by decide),
      fwPunctPass_win3_skip ':' '：' l '？' r (by decide) (by decide) (by decide) (by decide)]
      · rw [if_neg h,
      fwPunctPass_win3_skip ';' '；' l '?' r (by decide) (by decide) (by decide) (by decide),
      fwPunctPass_win3_skip ':' '：' l '?' r (by decide) (by decide) (by decide) (by decide)]
    · intro l
      simp only [normalizeFullwidthPunct, halfToFull, List.foldl]
      rw [      fwPunctPass_win2_skip ',' '，' l '?' (by decide) (by decide) (by decide) (by decide),
      fwPunctPass_win2_skip '.' '。' l '?' (by decide) (by decide) (by decide) (by decide),
      fwPunctPass_win2_skip '!' '！' l '?' (by decide) (by decide) (by decide) (by decide)]
      rw [fwPunctPass_win2_active '?' '？' l (by decide) (by decide) (by decide)]
      by_cases h : isCjkNoKorean l = true
      · rw [if_pos h,
      fwPunctPass_win2_skip ';' '；' l '？' (by decide) (by decide) (by decide) (by decide),
      fwPunctPass_win2_skip ':' '：' l '？' (by decide) (by decide) (by decide) (by decide)]
      · rw [if_neg h,
      fwPunctPass_win2_skip ';' '；' l '?' (by decide) (by decide) (by decide) (by decide),
      fwPunctPass_win2_skip ':' '：' l '?' (by decide) (by decide) (by decide) (by decide)]
  · refine ⟨?_, ?_, by decide⟩
    · intro l r
      simp only [normalizeFullwidthPunct, halfToFull, List.foldl]
      rw [      fwPunctPass_win3_skip ',' '，' l ';' r (by decide) (by decide) (by decide) (by decide),
      fwPunctPass_win3_skip '.' '。' l ';' r (by decide) (by decide) (by decide) (by decide),
      fwPunctPass_win3_skip '!' '！' l ';' r (by decide) (by decide) (by decide) (by decide),
      fwPunctPass_win3_skip '?' '？' l ';' r (by decide) (by decide) (by decide) (by decide)]
      rw [fwPunctPass_win3_active ';' '；' l r (by decide) (by decide) (by decide)]
      by_cases h : isCjkNoKorean l = true ∧ (isCjkNoKorean r = true ∨ isWs r = true)
      · rw [if_pos h,
      fwPunctPass_win3_skip ':' '：' l '；' r (by decide) (by decide) (by decide) (by decide)]
      · rw [if_neg h,
      fwPunctPass_win3_skip ':' '：' l ';' r (by decide) (by decide) (by decide) (by decide)]
    · intro l
      simp only [normalizeFullwidthPunct, halfToFull, List.foldl]
      rw [      fwPunctPass_win2_skip ',' '，' l ';' (by decide) (by decide) (by decide) (by decide),
      fwPunctPass_win2_skip '.' '。' l ';' (by decide) (by decide) (by decide) (by decide),
      fwPunctPass_win2_skip '!' '！' l ';' (by decide) (by decide) (by decide) (by decide),
      fwPunctPass_win2_skip '?' '？' l ';' (by decide) (by decide) (by decide) (by decide)]
      rw [fwPunctPass_win2_active ';' '；' l (by decide) (by decide) (by decide)]
      by_cases h : isCjkNoKorean l = true
      · rw [if_pos h,
      fwPunctPass_win2_skip ':' '：' l '；' (by decide) (by decide) (by decide) (by decide)]
      · rw [if_neg h,
      fwPunctPass_win2_skip ':' '：' l ';' (by decide) (by decide) (by decide) (by decide)]
  · refine ⟨?_, ?_, by decide⟩
    · intro l r
      simp only [normalizeFullwidthPunct, halfToFull, List.foldl]
      rw [      fwPunctPass_win3_skip ',' '，' l ':' r (by decide) (by decide) (by decide) (by decide),
      fwPunctPass_win3_skip '.' '。' l ':' r (by decide) (by decide) (by decide) (by decide),
      fwPunctPass_win3_skip '!' '！' l ':' r (by decide) (by decide) (by decide) (by decide),
      fwPunctPass_win3_skip '?' '？' l ':' r (by decide) (by decide) (by decide) (by decide),
      fwPunctPass_win3_skip ';' '；' l ':' r (by decide) (by decide) (by decide) (by decide)]
      rw [fwPunctPass_win3_active ':' '：' l r (by decide) (by decide) (by decide)]
    · intro l
      simp only [normalizeFullwidthPunct, halfToFull, List.foldl]
      rw [      fwPunctPass_win2_skip ',' '，' l ':' (by decide) (by decide) (by decide) (by decide),
      fwPunctPass_win2_skip '.' '。' l ':' (by decide) (by decide) (by decide) (by decide),
      fwPunctPass_win2_skip '!' '！' l ':' (by decide) (by decide) (by decide) (by decide),
      fwPunctPass_win2_skip '?' '？' l ':' (by decide) (by decide) (by decide) (by decide),
      fwPunctPass_win2_skip ';' '；' l ':' (by decide) (by decide) (by decide) (by decide)]
      rw [fwPunctPass_win2_active ':' '：' l (by decide) (by decide) (by decide)]

/-- Witness for C5 at the comma pair with Han neighbors. -/
theorem C5_fullwidth_punct_contexts_witness :
    normalizeFullwidthPunct ['中', ',', '中'] = ['中', '，', '中'] := by
  have h := (C5_fullwidth_punct_contexts ',' '，' (by decide)).1 '中' '中'
  rw [if_pos (by decide)] at h
  exact h

/-- C5 counterexample.  The claim's conversion condition is wrong on the right
side: in `"中. x"` the period's right neighbor is a space (neither a CJK
character nor end of text), so per the claim it should stay unchanged, yet the
rule converts it (the code's second pass uses a `(?=\s|$)` lookahead). -/
theorem C5_fullwidth_punct_counterexample :
    normalizeFullwidthPunct "中. x".data = "中。 x".data
    ∧ "中。 x".data ≠ "中. x".data := ⟨rfl, by decide⟩


/-- C6 counterexample.  The claim's no-space exception set ends with the
opening angle bracket 〈 (U+3008) where the code's set has the closing angle
bracket 〉 (U+3009).  A closing angle bracket before an opening quote is a
CJK closing-bracket character not in the claim's listed set, so the claim
requires a space to be inserted — but the code suppresses it. -/
theorem C6_quote_spacing_counterexample :
    fixQuotes "〉“".data = "〉“".data ∧ "〉“".data ≠ "〉 “".data :=
  ⟨rfl, by decide⟩

/-- C6 as amended.  For the double-quote rule (and identically for single
quotes), a space is inserted before an opening quote when the preceding
character is ASCII alphanumeric, a CJK script character, a CJK
closing-bracket or terminal-punctuation character, except that no space is
added when that character lies in 》」』】）〉，。！？；：、 (the closing
angle bracket 〉, not the opening 〈 of the original claim); the symmetric
rule applies after a closing quote with 《「『【（〈，。！？；：、; an
em-dash —— adjacent to a quote receives a space; and the two spec examples
behave as stated. -/
theorem C6_quote_spacing_rules :
    (∀ l : Char, fixQuotes [l, '“'] =
        if quoteBeforeClass l = true then
          (if l ∈ noSpaceBefore then [l, '“'] else [l, ' ', '“'])
        else [l, '“'])
    ∧ (∀ r : Char, fixQuotes ['”', r] =
        if quoteAfterClass r = true then
          (if r ∈ noSpaceAfter then ['”', r] else ['”', ' ', r])
        else ['”', r])
    ∧ (∀ l : Char, fixSingleQuotes [l, '‘'] =
        if quoteBeforeClass l = true then
          (if l ∈ noSpaceBefore then [l, '‘'] else [l, ' ', '‘'])
        else [l, '‘'])
    ∧ (∀ r : Char, fixSingleQuotes ['’', r] =
        if quoteAfterClass r = true then
          (if r ∈ noSpaceAfter then ['’', r] else ['’', ' ', r])
        else ['’', r])
    ∧ fixQuotes "——“".data = "—— “".data
    ∧ fixQuotes "”——".data = "” ——".data
    ∧ fixQuotes "文本，“引用”。".data = "文本，“引用”。".data
    ∧ fixQuotes "开始。“内容”结束".data = "开始。“内容” 结束".data := by
  refine ⟨?_, ?_, ?_, ?_, rfl, rfl, rfl, rfl⟩
  · intro l
    exact fixQuoteSpacing_before_win '“' '”' l (by decide) (by decide) (by decide) (by decide)
  · intro r
    exact fixQuoteSpacing_after_win '“' '”' r (by decide) (by decide)
  · intro l
    exact fixQuoteSpacing_before_win '‘' '’' l (by decide) (by decide) (by decide) (by decide)
  · intro r
    exact fixQuoteSpacing_after_win '‘' '’' r (by decide) (by decide)

/-- C4 as amended.  Placeholder tokens can collide with document content (see
the counterexample), and because restoration is a plain `str.replace`, even a
document containing no full token is corrupted when its prose overlaps a token
boundary next to a fence: the token-free document `___CODE_BLOCK_0` + fenced
`x` comes back as the code block followed by the leftover `CODE_BLOCK_0___`,
with the prose destroyed (second and third conjuncts).  The byte-for-byte
code-block round trip with polished prose therefore does not hold for all
token-free documents; it is established here on a representative document
family whose prose does not interact with the placeholder pattern: for every
fenced block body `c` containing no backtick, the CJK/Latin prose lines around
the fence are polished while the block body reappears byte-for-byte identical
(first conjunct). -/
theorem C4_markdown_block_preserved :
    (∀ c : List Char, btick ∉ c →
      processMarkdown compileNone defaultConfig
          ("中文text\n```\n".data ++ c ++ "\n```\n结束end".data)
        = "中文 text\n```\n".data ++ c ++ "\n```\n结束 end".data)
    ∧ processMarkdown compileNone defaultConfig "___CODE_BLOCK_0```x```".data
        = "```x```CODE_BLOCK_0___".data
    ∧ "```x```CODE_BLOCK_0___".data ≠ "___CODE_BLOCK_0```x```".data := by
  refine ⟨?_, rfl, by decide⟩
  intro c hc
  have hdoc : "中文text\n```\n".data ++ c ++ "\n```\n结束end".data
      = "中文text\n".data ++ btick :: btick :: btick ::
          '\n' :: (c ++ '\n' :: btick :: btick :: btick :: "\n结束end".data) := by
    rw [List.append_assoc]
    rfl
  rw [hdoc]
  obtain ⟨f, hf⟩ : ∃ f, ("中文text\n".data ++ btick :: btick :: btick ::
      '\n' :: (c ++ '\n' :: btick :: btick :: btick :: "\n结束end".data)).length = f + 1 := by
    refine ⟨("中文text\n".data ++ btick :: btick :: btick ::
      '\n' :: (c ++ '\n' :: btick :: btick :: btick :: "\n结束end".data)).length - 1, ?_⟩
    rw [List.length_append, List.length_cons]
    omega
  have h1 : extractFenced ("中文text\n".data ++ btick :: btick :: btick ::
        '\n' :: (c ++ '\n' :: btick :: btick :: btick :: "\n结束end".data)).length []
        ("中文text\n".data ++ btick :: btick :: btick ::
          '\n' :: (c ++ '\n' :: btick :: btick :: btick :: "\n结束end".data))
      = ("中文text\n___CODE_BLOCK_0___\n结束end".data,
         [btick :: btick :: btick :: '\n' :: (c ++ ['\n', btick, btick, btick])]) := by
    rw [hf, extractFenced_wrapped f [] "中文text\n".data c "\n结束end".data
      (by decide) hc (by decide)]
    rfl
  have h2 : extractInline ("中文text\n___CODE_BLOCK_0___\n结束end".data).length
        [btick :: btick :: btick :: '\n' :: (c ++ ['\n', btick, btick, btick])]
        "中文text\n___CODE_BLOCK_0___\n结束end".data
      = ("中文text\n___CODE_BLOCK_0___\n结束end".data,
         [btick :: btick :: btick :: '\n' :: (c ++ ['\n', btick, btick, btick])]) :=
    extractInline_noBtick _ _ _ (by decide)
  have h4 : collapseNewlines (joinNl (processLines compileNone defaultConfig false
        (splitNl "中文text\n___CODE_BLOCK_0___\n结束end".data)))
      = "中文 text\n___CODE_BLOCK_0___\n结束 end".data := rfl
  have h3 : restoreBlocks 0 [btick :: btick :: btick :: '\n' :: (c ++ ['\n', btick, btick, btick])]
        "中文 text\n___CODE_BLOCK_0___\n结束 end".data
      = "中文 text\n".data ++
          (btick :: btick :: btick :: '\n' :: (c ++ ['\n', btick, btick, btick])) ++
          "\n结束 end".data := rfl
  simp only [processMarkdown, h1, h2, h4, h3]
  simp only [List.append_assoc, List.cons_append, List.nil_append]
  rfl

/-- Witness for C4 at a concrete block body. -/
theorem C4_markdown_block_preserved_witness :
    processMarkdown compileNone defaultConfig
        ("中文text\n```\n".data ++ "print(1)".data ++ "\n```\n结束end".data)
      = "中文 text\n```\n".data ++ "print(1)".data ++ "\n```\n结束 end".data :=
  C4_markdown_block_preserved.1 "print(1)".data (by decide)

/-- C4 counterexample.  The placeholder `___CODE_BLOCK_0___` can collide with
document content: in a document whose prose already contains that token and
which has one fenced block, restoration replaces the prose occurrence with the
code block as well, so the output is not the collision-free polished document
the claim promises (prose unchanged, block preserved). -/
theorem C4_markdown_collision_counterexample :
    processMarkdown compileNone defaultConfig "___CODE_BLOCK_0___\n```x```".data
      = "```x```\n```x```".data
    ∧ "```x```\n```x```".data ≠ "___CODE_BLOCK_0___\n```x```".data :=
  ⟨rfl, by decide⟩

end CjkFmt
